import Mathlib

/-!
# Agent endpoint handlers and the statistics ring buffer

A shallow embedding of the HTTP handlers of `command/agent/agent_endpoint.go`
and of the ring buffer of `client/stats/ring.go`.  The handlers
talk to collaborators (the nomad server, the nomad client and its RPC proxy,
the logger) whose code is outside this package.  A collaborator primitive is
a state transformer over an arbitrary world type `σ`; a handler threads the
world through the primitives it calls, in program order.  A handler that
returns the world it was given has therefore called no primitive, and this
holds for every implementation of the collaborators.
-/

namespace Nomad

/-! ## Go values used by the handlers -/

/-- A Go `error` value: either the coded error built by `CodedError`, or any
other error value, of which only the message is observable. -/
inductive GoError where
  | coded (code : Int) (msg : String)
  | plain (msg : String)
  deriving DecidableEq, Repr

/-- The method `Error()` of a Go error. -/
def GoError.Error : GoError → String
  | GoError.coded _ msg => msg
  | GoError.plain msg => msg

/-- Modelled from the spec: `CodedError` is declared in a file of the package
that is not part of the sources at hand.  It pairs a machine-checkable code
with a human-readable message. -/
def CodedError (c : Int) (s : String) : GoError := GoError.coded c s

/-- The record `serf.Member` of the gossip library.  `Status` is the raw
`serf.MemberStatus`, a Go `int`. -/
structure SerfMember where
  Name : String
  Addr : List Nat
  Port : Nat
  Tags : List (String × String)
  Status : Int
  ProtocolMin : Nat
  ProtocolMax : Nat
  ProtocolCur : Nat
  DelegateMin : Nat
  DelegateMax : Nat
  DelegateCur : Nat
  deriving DecidableEq, Repr

/-- The struct `Member` (lines 10-22). -/
structure Member where
  Name : String
  Addr : List Nat
  Port : Nat
  Tags : List (String × String)
  Status : String
  ProtocolMin : Nat
  ProtocolMax : Nat
  ProtocolCur : Nat
  DelegateMin : Nat
  DelegateMax : Nat
  DelegateCur : Nat
  deriving DecidableEq, Repr

/-- The struct `joinResult` (lines 208-211). -/
structure joinResult where
  NumJoined : Int
  Error : String
  deriving DecidableEq, Repr

/-- Modelled from the spec: the struct `Config` is declared in a file of the
package that is not part of the sources at hand.  The handlers copy the
pointer to the configuration and read none of its fields, so a configuration
stands for its digest. -/
structure Config where
  digest : String
  deriving DecidableEq, Repr

/-- The struct `agentSelf` (lines 202-206). -/
structure agentSelf where
  Config : Nomad.Config
  Member : Nomad.Member
  Stats : List (String × List (String × String))
  deriving DecidableEq, Repr

/-- The `interface{}` results the handlers of this development return. -/
inductive Response where
  | nil
  | self (v : agentSelf)
  | join (r : joinResult)
  | members (ms : List Member)
  | peers (ps : List String)
  deriving DecidableEq, Repr

/-- The part of `url.URL` the handlers read: `Query()` as a Go map from a key
to its values, a missing key giving the empty slice. -/
structure URL where
  Query : String → List String

/-- The part of `http.Request` the handlers read. -/
structure Request where
  Method : String
  URL : URL

/-- The method `Get` of `url.Values`: the first value of the key, or the empty
string when the key has no value. -/
def Values.Get (v : String → List String) (key : String) : String :=
  match v key with
  | [] => ""
  | x :: _ => x

/-! ## Collaborators -/

/-- The primitives of the nomad server the handlers call. -/
structure Server (σ : Type) where
  LocalMember : σ → SerfMember × σ
  Join : List String → σ → (Int × Option GoError) × σ
  Members : σ → List SerfMember × σ
  RemoveFailedNode : String → σ → Option GoError × σ
  RaftPeers : σ → (List String × Option GoError) × σ

/-- The primitives of the nomad client the handlers call.  `ServerRPCAddrs`
stands for `RpcProxy().ServerRPCAddrs()`; `AddPrimaryServerToRpcProxy` returns
`true` when the server endpoint it returns is not nil. -/
structure Client (σ : Type) where
  ServerRPCAddrs : σ → List String × σ
  AddPrimaryServerToRpcProxy : String → σ → Bool × σ

/-- The logger of the agent: `Printf` with a format and its one argument. -/
structure Logger (σ : Type) where
  Printf : String → String → σ → σ

/-- The fields of `Agent` the handlers read, and its method `Stats`, which is
declared outside the sources at hand and is taken as a primitive. -/
structure Agent (σ : Type) where
  server : Option (Server σ)
  client : Option (Client σ)
  logger : Logger σ
  config : Config
  Stats : σ → List (String × List (String × String)) × σ

/-- Modelled from the spec: the accessor `Agent.Server` is declared in a file
of the package that is not part of the sources at hand; the node is
server-capable when the agent holds a server. -/
def Agent.Server {σ : Type} (a : Agent σ) : Option (Server σ) := a.server

/-- Modelled from the spec: the accessor `Agent.Client` is declared in a file
of the package that is not part of the sources at hand; the node is
client-capable when the agent holds a client. -/
def Agent.Client {σ : Type} (a : Agent σ) : Option (Client σ) := a.client

/-- The struct `HTTPServer`, reduced to the field the handlers read. -/
structure HTTPServer (σ : Type) where
  agent : Agent σ

/-- What a handler returns: the Go pair `(interface{}, error)` and the world
after the call. -/
abbrev Outcome (σ : Type) : Type := (Response × Option GoError) × σ

/-! ## The handlers -/

section Handlers

variable {σ : Type}

/-- `nomadMember` (lines 24-38).  `statusString` is `serf.MemberStatus.String`,
a function of the gossip library. -/
def nomadMember (statusString : Int → String) (m : SerfMember) : Member :=
  { Name := m.Name
    Addr := m.Addr
    Port := m.Port
    Tags := m.Tags
    Status := statusString m.Status
    ProtocolMin := m.ProtocolMin
    ProtocolMax := m.ProtocolMax
    ProtocolCur := m.ProtocolCur
    DelegateMin := m.DelegateMin
    DelegateMax := m.DelegateMax
    DelegateCur := m.DelegateCur }

/-- The zero value of `serf.Member`, the initial value of the variable
`member` of `AgentSelfRequest` (line 46). -/
def zeroSerfMember : SerfMember :=
  { Name := "", Addr := [], Port := 0, Tags := [], Status := 0, ProtocolMin := 0,
    ProtocolMax := 0, ProtocolCur := 0, DelegateMin := 0, DelegateMax := 0,
    DelegateCur := 0 }

/-- `AgentSelfRequest` (lines 40-58). -/
def AgentSelfRequest (ErrInvalidMethod : String) (statusString : Int → String)
    (s : HTTPServer σ) (req : Request) (w : σ) : Outcome σ :=
  if req.Method ≠ "GET" then
    ((Response.nil, some (CodedError 405 ErrInvalidMethod)), w)
  else
    let got : SerfMember × σ :=
      match s.agent.Server with
      | some srv => srv.LocalMember w
      | none => (zeroSerfMember, w)
    match s.agent.Stats got.2 with
    | (stats, w2) =>
      ((Response.self
          { Config := s.agent.config
            Member := nomadMember statusString got.1
            Stats := stats }, none), w2)

/-- `AgentJoinRequest` (lines 60-83).  `ErrInvalidMethod` is a string constant
of the package declared outside the sources at hand. -/
def AgentJoinRequest (ErrInvalidMethod : String) (s : HTTPServer σ) (req : Request)
    (w : σ) : Outcome σ :=
  if req.Method ≠ "PUT" ∧ req.Method ≠ "POST" then
    ((Response.nil, some (CodedError 405 ErrInvalidMethod)), w)
  else
    match s.agent.Server with
    | none => ((Response.nil, some (CodedError 501 ErrInvalidMethod)), w)
    | some srv =>
      let addrs := req.URL.Query "address"
      if addrs.length = 0 then
        ((Response.nil, some (CodedError 400 "missing address to join")), w)
      else
        match srv.Join addrs w with
        | ((num, err), w1) =>
          let errStr : String :=
            match err with
            | some e => e.Error
            | none => ""
          ((Response.join { NumJoined := num, Error := errStr }, none), w1)

/-- `AgentMembersRequest` (lines 85-100). -/
def AgentMembersRequest (ErrInvalidMethod : String) (statusString : Int → String)
    (s : HTTPServer σ) (req : Request) (w : σ) : Outcome σ :=
  if req.Method ≠ "GET" then
    ((Response.nil, some (CodedError 405 ErrInvalidMethod)), w)
  else
    match s.agent.Server with
    | none => ((Response.nil, some (CodedError 501 ErrInvalidMethod)), w)
    | some srv =>
      match srv.Members w with
      | (serfMembers, w1) =>
        ((Response.members (serfMembers.map (nomadMember statusString)), none), w1)

/-- `AgentForceLeaveRequest` (lines 102-120). -/
def AgentForceLeaveRequest (ErrInvalidMethod : String) (s : HTTPServer σ) (req : Request)
    (w : σ) : Outcome σ :=
  if req.Method ≠ "PUT" ∧ req.Method ≠ "POST" then
    ((Response.nil, some (CodedError 405 ErrInvalidMethod)), w)
  else
    match s.agent.Server with
    | none => ((Response.nil, some (CodedError 501 ErrInvalidMethod)), w)
    | some srv =>
      let node := Values.Get req.URL.Query "node"
      if node = "" then
        ((Response.nil, some (CodedError 400 "missing node to force leave")), w)
      else
        match srv.RemoveFailedNode node w with
        | (err, w1) => ((Response.nil, err), w1)

/-- The two accumulators of `listServers`: the slice `peers` and the keys of
the map `uniquePeers` (every value stored in the map is `true`). -/
structure PeerAcc where
  peers : List String
  uniquePeers : List String
  deriving DecidableEq, Repr

/-- The body of both loops of `listServers` (lines 153-159 and 167-173): a
peer that is not a key of `uniquePeers` is recorded there and appended to
`peers`. -/
def PeerAcc.visit (acc : PeerAcc) (peer : String) : PeerAcc :=
  if peer ∈ acc.uniquePeers then acc
  else { peers := acc.peers ++ [peer], uniquePeers := peer :: acc.uniquePeers }

/-- The client half of `listServers` (lines 162-176), entered with the
accumulators as the server half left them. -/
def listServersClient (s : HTTPServer σ) (acc : PeerAcc) (w : σ) : Outcome σ :=
  match s.agent.client with
  | some client =>
    match client.ServerRPCAddrs w with
    | (clientPeers, w1) =>
      ((Response.peers (clientPeers.foldl PeerAcc.visit acc).peers, none), w1)
  | none => ((Response.peers acc.peers, none), w)

/-- `listServers` (lines 136-177). -/
def listServers (ErrInvalidMethod : String) (s : HTTPServer σ) (_req : Request)
    (w : σ) : Outcome σ :=
  match s.agent.Client with
  | none => ((Response.nil, some (CodedError 501 ErrInvalidMethod)), w)
  | some _ =>
    let acc : PeerAcc := { peers := [], uniquePeers := [] }
    match s.agent.server with
    | some server =>
      match server.RaftPeers w with
      | ((_, some err), w1) => ((Response.nil, some err), w1)
      | ((raftPeers, none), w1) =>
        listServersClient s (raftPeers.foldl PeerAcc.visit acc) w1
    | none => listServersClient s acc w

/-- One round of the loop of `updateServers` (lines 192-198): trace the
address, offer it to the client, log a refusal. -/
def updateServersStep (s : HTTPServer σ) (client : Client σ) (w : σ) (server : String) : σ :=
  let w1 := s.agent.logger.Printf
    "[TRACE] Adding server %s to the client's primary server list" server w
  match client.AddPrimaryServerToRpcProxy server w1 with
  | (true, w2) => w2
  | (false, w2) =>
    s.agent.logger.Printf "[ERR] Attempt to add server %q to client failed" server w2

/-- `updateServers` (lines 179-200). -/
def updateServers (ErrInvalidMethod : String) (s : HTTPServer σ) (req : Request)
    (w : σ) : Outcome σ :=
  match s.agent.Client with
  | none => ((Response.nil, some (CodedError 501 ErrInvalidMethod)), w)
  | some client =>
    let servers := req.URL.Query "address"
    if servers.length = 0 then
      ((Response.nil, some (CodedError 400 "missing server address")), w)
    else
      ((Response.nil, none), servers.foldl (updateServersStep s client) w)

/-- `AgentServersRequest` (lines 125-134). -/
def AgentServersRequest (ErrInvalidMethod : String) (s : HTTPServer σ) (req : Request)
    (w : σ) : Outcome σ :=
  if req.Method = "PUT" ∨ req.Method = "POST" then
    updateServers ErrInvalidMethod s req w
  else if req.Method = "GET" then
    listServers ErrInvalidMethod s req w
  else
    ((Response.nil, some (CodedError 405 ErrInvalidMethod)), w)

/-! ## Specification-side definitions -/

/-- The list obtained by keeping only the first occurrence of each address:
the head is kept, and every later copy of it is removed from the rest. -/
def keepFirst : List String → List String
  | [] => []
  | a :: l => a :: (keepFirst l).filter (fun b => b ≠ a)

/-- The accumulators of `listServers` after the addresses of `L` have been
visited: the map holds the addresses of `peers`, which are those of `L`,
each once, ordered by first position in `L`. -/
structure PeerAcc.Tracks (acc : PeerAcc) (L : List String) : Prop where
  keys : ∀ x, x ∈ acc.uniquePeers ↔ x ∈ acc.peers
  mem : ∀ x, x ∈ acc.peers ↔ x ∈ L
  nodup : acc.peers.Nodup
  order : acc.peers.Pairwise (fun x y => L.indexOf x < L.indexOf y)

/-! ## Recording collaborators

Collaborators over a world that is the log of the primitives invoked so far,
the latest last.  They are used to run the handlers on concrete inputs. -/

/-- One invocation of a collaborator primitive, with its arguments. -/
inductive Call where
  | LocalMember
  | Join (addrs : List String)
  | Members
  | RemoveFailedNode (node : String)
  | RaftPeers
  | ServerRPCAddrs
  | AddPrimaryServerToRpcProxy (server : String)
  | Printf (format : String) (arg : String)
  | Stats
  deriving DecidableEq, Repr

/-- A server that answers with the given values and logs each invocation. -/
def recordingServer (self : SerfMember) (join : List String → Int × Option GoError)
    (members : List SerfMember) (remove : String → Option GoError)
    (raft : List String × Option GoError) : Server (List Call) :=
  { LocalMember := fun w => (self, w ++ [Call.LocalMember])
    Join := fun addrs w => (join addrs, w ++ [Call.Join addrs])
    Members := fun w => (members, w ++ [Call.Members])
    RemoveFailedNode := fun node w => (remove node, w ++ [Call.RemoveFailedNode node])
    RaftPeers := fun w => (raft, w ++ [Call.RaftPeers]) }

/-- A client that answers with the given values and logs each invocation. -/
def recordingClient (addrs : List String) (accept : String → Bool) : Client (List Call) :=
  { ServerRPCAddrs := fun w => (addrs, w ++ [Call.ServerRPCAddrs])
    AddPrimaryServerToRpcProxy := fun server w =>
      (accept server, w ++ [Call.AddPrimaryServerToRpcProxy server]) }

/-- A logger that logs each invocation. -/
def recordingLogger : Logger (List Call) :=
  { Printf := fun format arg w => w ++ [Call.Printf format arg] }

/-- An HTTP server over the recording collaborators. -/
def recordingHTTPServer (server : Option (Server (List Call)))
    (client : Option (Client (List Call))) : HTTPServer (List Call) :=
  { agent :=
      { server := server
        client := client
        logger := recordingLogger
        config := { digest := "" }
        Stats := fun w => ([("nomad", [("leader", "true")])], w ++ [Call.Stats]) } }

/-- A server whose consensus peer query returns `raft` and whose other
primitives return empty answers. -/
def raftServer (raft : List String × Option GoError) : Server (List Call) :=
  recordingServer
    { Name := "", Addr := [], Port := 0, Tags := [], Status := 0, ProtocolMin := 0,
      ProtocolMax := 0, ProtocolCur := 0, DelegateMin := 0, DelegateMax := 0,
      DelegateCur := 0 }
    (fun _ => (0, none)) [] (fun _ => none) raft

/-- A request with the given method and values of the keys `address` and
`node`. -/
def mkRequest (method : String) (address : List String) (node : List String) : Request :=
  { Method := method
    URL := { Query := fun key =>
      if key = "address" then address else if key = "node" then node else [] } }

/-- A gossip member with the given name, address, port, tags and status, the
version fields being 1, 5, 2 for the protocol and 2, 4, 4 for the delegate. -/
def mkSerfMember (name : String) (addr : List Nat) (port : Nat)
    (tags : List (String × String)) (status : Int) : SerfMember :=
  { Name := name, Addr := addr, Port := port, Tags := tags, Status := status,
    ProtocolMin := 1, ProtocolMax := 5, ProtocolCur := 2, DelegateMin := 2,
    DelegateMax := 4, DelegateCur := 4 }

/-- A rendering of the raw status in the manner of the gossip library. -/
def sampleStatusString (status : Int) : String :=
  if status = 0 then "none"
  else if status = 1 then "alive"
  else if status = 2 then "leaving"
  else if status = 3 then "left"
  else if status = 4 then "failed"
  else "unknown"

/-- A server with the given answers of the gossip primitives, whose consensus
peer query returns no peer. -/
def gossipServer (join : List String → Int × Option GoError) (members : List SerfMember)
    (remove : String → Option GoError) : Server (List Call) :=
  recordingServer (mkSerfMember "" [] 0 [] 0) join members remove ([], none)

/-- A sequence of register requests: `updateServers` run on each request in
turn, the world of one call being handed to the next. -/
def registerAll (ErrInvalidMethod : String) (s : HTTPServer σ) (reqs : List Request)
    (w : σ) : σ :=
  reqs.foldl (fun w1 req => (updateServers ErrInvalidMethod s req w1).2) w

/-- The addresses of a sequence of register requests, in request order. -/
def requestedAddresses : List Request → List String
  | [] => []
  | req :: reqs => req.URL.Query "address" ++ requestedAddresses reqs

/-- The addresses offered to `AddPrimaryServerToRpcProxy` in a log of
invocations, in the order of the log. -/
def offeredCalls : List Call → List String
  | [] => []
  | Call.AddPrimaryServerToRpcProxy server :: calls => server :: offeredCalls calls
  | _ :: calls => offeredCalls calls

/-- Modelled from the spec: the RPC proxy of the client is outside the sources
at hand.  Here it is a list to which each accepted address is appended and
which `ServerRPCAddrs` returns; the world is that list. -/
def listRegistrar (accept : String → Bool) : Client (List String) :=
  { ServerRPCAddrs := fun w => (w, w)
    AddPrimaryServerToRpcProxy := fun server w =>
      (accept server, if accept server then w ++ [server] else w) }

/-- A client-only HTTP server over the list registrar, with a logger and
statistics that leave the list alone. -/
def registrarHTTPServer (accept : String → Bool) : HTTPServer (List String) :=
  { agent :=
      { server := none
        client := some (listRegistrar accept)
        logger := { Printf := fun _ _ w => w }
        config := { digest := "" }
        Stats := fun w => ([], w) } }

end Handlers

/-! ## The ring buffer of `client/stats/ring.go`

The lock of the buffer is left out: every method holds it from entry to
return, so the methods run one at a time.  A method returns `none` where the
Go code panics on an index or slice bound. -/

/-- A Go `interface{}` value held by the ring buffer: `nil`, the placeholder
`struct{}{}` that `Enqueue` appends, or a value proper. -/
inductive Iface (α : Type) where
  | nil
  | emptyStruct
  | val (a : α)
  deriving DecidableEq, Repr

/-- The struct `RingBuff` (lines 14-19): `buff` is the slice up to its length
and `cap` is its capacity, which no method changes. -/
structure RingBuff (α : Type) where
  head : Int
  buff : List (Iface α)
  cap : Int
  deriving DecidableEq, Repr

/-- `NewRingBuff` (lines 22-27).  `makeReturns capacity` tells whether the
allocation `make([]interface{}, 0, capacity)` of the Go run time returns; where
it does not, the call panics, which is the result `none`.  The test of the
capacity comes first, as in the code. -/
def NewRingBuff {α : Type} (makeReturns : Int → Bool) (capacity : Int) :
    Option (Except String (RingBuff α)) :=
  if capacity < 1 then
    some (Except.error
      ("can not create a ring buffer with capacity: " ++ toString capacity))
  else if makeReturns capacity then
    some (Except.ok { buff := [], head := -1, cap := capacity })
  else
    none

/-- The bound test of the Go run time on `make([]interface{}, 0, capacity)` on
a 64-bit platform: an interface value takes 16 bytes, and a request of more
than 2^48 bytes panics.  A request within the bound is taken to be served. -/
def makeslice64 (capacity : Int) : Bool :=
  decide (capacity * 16 ≤ 2 ^ 48)

/-- `Enqueue` (lines 31-42): the buffer after the call. -/
def RingBuff.Enqueue {α : Type} (r : RingBuff α) (value : Iface α) : Option (RingBuff α) :=
  let buff1 : List (Iface α) :=
    if (r.buff.length : Int) < r.cap then r.buff ++ [Iface.emptyStruct] else r.buff
  let head1 : Int := r.head + 1
  let head2 : Int := if head1 = r.cap then 0 else head1
  if 0 ≤ head2 ∧ head2 < (buff1.length : Int) then
    some { head := head2, buff := buff1.set head2.toNat value, cap := r.cap }
  else
    none

/-- `Peek` (lines 45-52): the value returned and the buffer after the call. -/
def RingBuff.Peek {α : Type} (r : RingBuff α) : Option (Iface α × RingBuff α) :=
  if r.head = -1 then
    some (Iface.nil, r)
  else if 0 ≤ r.head then
    match r.buff[r.head.toNat]? with
    | some value => some (value, r)
    | none => none
  else
    none

/-- `Values` (lines 55-67): the values returned and the buffer after the
call. -/
def RingBuff.Values {α : Type} (r : RingBuff α) : Option (List (Iface α) × RingBuff α) :=
  if r.head = (r.buff.length : Int) - 1 then
    some (r.buff, r)
  else if 0 ≤ r.head + 1 ∧ r.head + 1 ≤ (r.buff.length : Int) then
    some (r.buff.drop (r.head + 1).toNat ++ r.buff.take (r.head + 1).toNat, r)
  else
    none

/-- A sequence of `Enqueue` calls, in the order of the list. -/
def RingBuff.enqueueAll {α : Type} : List (Iface α) → RingBuff α → Option (RingBuff α)
  | [], r => some r
  | value :: values, r =>
    match r.Enqueue value with
    | some r1 => RingBuff.enqueueAll values r1
    | none => none

/-- The buffer that `NewRingBuff capacity` returns, its allocation having
returned, after the given values have been enqueued into it, in the order of
the list; `none` when the creation fails with an error or a call panics. -/
def RingBuff.after {α : Type} (capacity : Int) (values : List (Iface α)) :
    Option (RingBuff α) :=
  match (NewRingBuff (fun _ => true) capacity : Option (Except String (RingBuff α))) with
  | some (Except.ok r) => RingBuff.enqueueAll values r
  | some (Except.error _) => none
  | none => none

/-- What holds of a buffer of capacity `c` after the values `vs` have been
enqueued, in this order, into a new buffer. -/
structure RingBuff.Holds {α : Type} (c : Nat) (vs : List (Iface α)) (r : RingBuff α) :
    Prop where
  cap : r.cap = c
  len : r.buff.length = min vs.length c
  head_ge : -1 ≤ r.head
  head_lt : r.head < r.buff.length
  filling : vs.length ≤ c → r.head = (vs.length : Int) - 1
  nonempty : vs ≠ [] → 0 ≤ r.head
  rot : r.buff.drop (r.head + 1).toNat ++ r.buff.take (r.head + 1).toNat
    = vs.drop (vs.length - c)
  last : ∀ v, vs.getLast? = some v → r.buff[r.head.toNat]? = some v

/-! ## Lemmas on the de-duplicating loop -/

theorem keepFirst_nil : keepFirst [] = [] := rfl

theorem keepFirst_cons (a : String) (l : List String) :
    keepFirst (a :: l) = a :: (keepFirst l).filter (fun b => b ≠ a) := rfl

theorem PeerAcc.Tracks.start : PeerAcc.Tracks { peers := [], uniquePeers := [] } [] :=
  { keys := fun _ => Iff.rfl
    mem := fun _ => Iff.rfl
    nodup := List.nodup_nil
    order := List.Pairwise.nil }

theorem PeerAcc.Tracks.visit {acc : PeerAcc} {L : List String} (h : acc.Tracks L)
    (a : String) : (acc.visit a).Tracks (L ++ [a]) := by
  by_cases ha : a ∈ acc.uniquePeers
  · have haL : a ∈ L := (h.mem a).1 ((h.keys a).1 ha)
    have hv : acc.visit a = acc := by simp [PeerAcc.visit, ha]
    rw [hv]
    refine ⟨h.keys, ?_, h.nodup, ?_⟩
    · intro x
      rw [h.mem x]
      constructor
      · intro hx
        exact List.mem_append_left _ hx
      · intro hx
        rcases List.mem_append.1 hx with hx | hx
        · exact hx
        · rw [List.mem_singleton.1 hx]
          exact haL
    · refine List.Pairwise.imp_of_mem ?_ h.order
      intro x y hx hy hxy
      rw [List.indexOf_append_of_mem ((h.mem x).1 hx),
        List.indexOf_append_of_mem ((h.mem y).1 hy)]
      exact hxy
  · have haP : a ∉ acc.peers := fun hp => ha ((h.keys a).2 hp)
    have haL : a ∉ L := fun hl => haP ((h.mem a).2 hl)
    have hv : acc.visit a = { peers := acc.peers ++ [a], uniquePeers := a :: acc.uniquePeers } := by
      simp [PeerAcc.visit, ha]
    rw [hv]
    refine ⟨?_, ?_, ?_, ?_⟩
    · intro x
      simp only [List.mem_cons, List.mem_append, List.mem_singleton, List.not_mem_nil, or_false]
      rw [h.keys x]
      exact Or.comm
    · intro x
      simp only [List.mem_append, List.mem_singleton]
      rw [h.mem x]
    · rw [List.nodup_append]
      refine ⟨h.nodup, List.nodup_singleton a, ?_⟩
      intro x hx hx2
      rw [List.mem_singleton.1 hx2] at hx
      exact haP hx
    · rw [List.pairwise_append]
      refine ⟨?_, List.pairwise_singleton _ _, ?_⟩
      · refine List.Pairwise.imp_of_mem ?_ h.order
        intro x y hx hy hxy
        rw [List.indexOf_append_of_mem ((h.mem x).1 hx),
          List.indexOf_append_of_mem ((h.mem y).1 hy)]
        exact hxy
      · intro x hx y hy
        rw [List.mem_singleton.1 hy, List.indexOf_append_of_mem ((h.mem x).1 hx),
          List.indexOf_append_of_not_mem haL]
        have hlt : List.indexOf x L < L.length := List.indexOf_lt_length.2 ((h.mem x).1 hx)
        omega

theorem PeerAcc.Tracks.foldl (l : List String) :
    ∀ {acc : PeerAcc} {L : List String}, acc.Tracks L →
      (l.foldl PeerAcc.visit acc).Tracks (L ++ l) := by
  induction l with
  | nil =>
    intro acc L h
    simpa using h
  | cons a t ih =>
    intro acc L h
    have h1 := ih (h.visit a)
    simpa using h1

theorem filter_ne_filter_not_mem (ps : List String) (a : String) (t : List String) :
    (t.filter (fun b => decide (b ≠ a))).filter (fun b => decide (b ∉ ps))
      = t.filter (fun b => decide (b ∉ ps ++ [a])) := by
  rw [List.filter_filter]
  congr 1
  funext b
  simp [not_or]

theorem filter_ne_of_mem (ps : List String) (a : String) (ha : a ∈ ps) (t : List String) :
    (t.filter (fun b => decide (b ≠ a))).filter (fun b => decide (b ∉ ps))
      = t.filter (fun b => decide (b ∉ ps)) := by
  rw [List.filter_filter]
  apply List.filter_congr
  intro b _
  by_cases hb : b ∈ ps
  · simp [hb]
  · have hba : b ≠ a := fun h => hb (h ▸ ha)
    simp [hb, hba]

theorem foldl_visit_peers (l : List String) :
    ∀ acc : PeerAcc, (∀ x, x ∈ acc.uniquePeers ↔ x ∈ acc.peers) →
      (l.foldl PeerAcc.visit acc).peers
        = acc.peers ++ (keepFirst l).filter (fun b => decide (b ∉ acc.peers)) := by
  induction l with
  | nil =>
    intro acc _
    simp [keepFirst_nil]
  | cons a t ih =>
    intro acc hk
    by_cases ha : a ∈ acc.uniquePeers
    · have hv : acc.visit a = acc := by simp [PeerAcc.visit, ha]
      have haP : a ∈ acc.peers := (hk a).1 ha
      have hf : (a :: (keepFirst t).filter (fun b => decide (b ≠ a))).filter
            (fun b => decide (b ∉ acc.peers))
          = ((keepFirst t).filter (fun b => decide (b ≠ a))).filter
            (fun b => decide (b ∉ acc.peers)) := by
        simp [List.filter_cons, haP]
      rw [List.foldl_cons, hv, ih acc hk, keepFirst_cons, hf, filter_ne_of_mem _ _ haP]
    · have haP : a ∉ acc.peers := fun hp => ha ((hk a).2 hp)
      have hv : acc.visit a
          = { peers := acc.peers ++ [a], uniquePeers := a :: acc.uniquePeers } := by
        simp [PeerAcc.visit, ha]
      have hk2 : ∀ x, x ∈ a :: acc.uniquePeers ↔ x ∈ acc.peers ++ [a] := by
        intro x
        simp only [List.mem_cons, List.mem_append, List.mem_singleton, List.not_mem_nil,
          or_false]
        rw [hk x]
        exact Or.comm
      have hf : (a :: (keepFirst t).filter (fun b => decide (b ≠ a))).filter
            (fun b => decide (b ∉ acc.peers))
          = a :: ((keepFirst t).filter (fun b => decide (b ≠ a))).filter
            (fun b => decide (b ∉ acc.peers)) := by
        simp [List.filter_cons, haP]
      rw [List.foldl_cons, hv, ih _ hk2, keepFirst_cons, hf, filter_ne_filter_not_mem]
      simp

theorem foldl_visit_eq_keepFirst (L : List String) :
    (L.foldl PeerAcc.visit { peers := [], uniquePeers := [] }).peers = keepFirst L := by
  rw [foldl_visit_peers L _ (fun _ => Iff.rfl)]
  simp

theorem keepFirst_tracks (L : List String) :
    PeerAcc.Tracks { peers := keepFirst L, uniquePeers := keepFirst L } L := by
  have h := PeerAcc.Tracks.foldl L PeerAcc.Tracks.start
  rw [List.nil_append] at h
  refine ⟨fun _ => Iff.rfl, ?_, ?_, ?_⟩
  · simpa [foldl_visit_eq_keepFirst] using h.mem
  · simpa [foldl_visit_eq_keepFirst] using h.nodup
  · simpa [foldl_visit_eq_keepFirst] using h.order

theorem keepFirst_of_nodup (L : List String) (h : L.Nodup) : keepFirst L = L := by
  induction L with
  | nil => rfl
  | cons a t ih =>
    have hat : a ∉ t := (List.nodup_cons.1 h).1
    have ih2 := ih (List.nodup_cons.1 h).2
    rw [keepFirst_cons, ih2, List.filter_eq_self.2]
    intro b hb
    have hba : b ≠ a := fun hba => hat (hba ▸ hb)
    simp [hba]

/-! ## The server list -/

theorem listServers_of_roles {σ : Type} (E : String) (s : HTTPServer σ) (req : Request)
    (srv : Server σ) (c : Client σ) (w w1 w2 : σ) (P F : List String)
    (hs : s.agent.server = some srv) (hc : s.agent.client = some c)
    (hP : srv.RaftPeers w = ((P, none), w1)) (hF : c.ServerRPCAddrs w1 = (F, w2)) :
    listServers E s req w = ((Response.peers (keepFirst (P ++ F)), none), w2) := by
  simp only [listServers, Agent.Client, hc, hs, hP, listServersClient, hF]
  rw [← List.foldl_append, foldl_visit_eq_keepFirst]

theorem listServers_no_client {σ : Type} (E : String) (s : HTTPServer σ) (req : Request)
    (w : σ) (hc : s.agent.client = none) :
    listServers E s req w = ((Response.nil, some (CodedError 501 E)), w) := by
  simp only [listServers, Agent.Client, hc]

theorem AgentServersRequest_get {σ : Type} (E : String) (s : HTTPServer σ) (req : Request)
    (w : σ) (hm : req.Method = "GET") :
    AgentServersRequest E s req w = listServers E s req w := by
  simp [AgentServersRequest, hm]

/-- C1: on a node that is both client- and server-capable, when the consensus
peer query returns `P` without error and the fallback-address query returns
`F`, `listServers` returns without error `P ++ F` with only the first
occurrence of each address kept; that list has no address twice, holds exactly
the addresses of `P` and `F`, and orders them by first position in `P ++ F`. -/
theorem listServers_first_occurrences {σ : Type} (E : String) (s : HTTPServer σ)
    (req : Request) (srv : Server σ) (c : Client σ) (w w1 w2 : σ) (P F : List String)
    (hs : s.agent.server = some srv) (hc : s.agent.client = some c)
    (hP : srv.RaftPeers w = ((P, none), w1)) (hF : c.ServerRPCAddrs w1 = (F, w2)) :
    listServers E s req w = ((Response.peers (keepFirst (P ++ F)), none), w2)
      ∧ (keepFirst (P ++ F)).Nodup
      ∧ (∀ a, a ∈ keepFirst (P ++ F) ↔ a ∈ P ∨ a ∈ F)
      ∧ (keepFirst (P ++ F)).Pairwise
          (fun a b => (P ++ F).indexOf a < (P ++ F).indexOf b) := by
  have ht := keepFirst_tracks (P ++ F)
  refine ⟨listServers_of_roles E s req srv c w w1 w2 P F hs hc hP hF, ht.nodup, ?_, ht.order⟩
  intro a
  rw [← List.mem_append]
  exact ht.mem a

theorem listServers_first_occurrences_witness :
    (recordingHTTPServer (some (raftServer (["a", "b", "a"], none)))
        (some (recordingClient ["c", "b", "c"] fun _ => true))).agent.server
      = some (raftServer (["a", "b", "a"], none))
    ∧ (raftServer (["a", "b", "a"], none)).RaftPeers []
      = ((["a", "b", "a"], none), [Call.RaftPeers])
    ∧ listServers "Invalid method"
        (recordingHTTPServer (some (raftServer (["a", "b", "a"], none)))
          (some (recordingClient ["c", "b", "c"] fun _ => true)))
        (mkRequest "GET" [] []) []
      = ((Response.peers ["a", "b", "c"], none), [Call.RaftPeers, Call.ServerRPCAddrs]) :=
  ⟨rfl, rfl,
    (listServers_first_occurrences "Invalid method"
      (recordingHTTPServer (some (raftServer (["a", "b", "a"], none)))
        (some (recordingClient ["c", "b", "c"] fun _ => true)))
      (mkRequest "GET" [] []) (raftServer (["a", "b", "a"], none))
      (recordingClient ["c", "b", "c"] fun _ => true) [] [Call.RaftPeers]
      [Call.RaftPeers, Call.ServerRPCAddrs] ["a", "b", "a"] ["c", "b", "c"]
      rfl rfl rfl rfl).1.trans (by decide)⟩

/-- C2: source precedence.  On a dual-role node, when the consensus peer query
returns without error a non-empty duplicate-free `P` and the fallback-address
query returns a duplicate-free `F` sharing no address with `P`, `listServers`
returns exactly `P ++ F` and no error. -/
theorem listServers_source_precedence {σ : Type} (E : String) (s : HTTPServer σ)
    (req : Request) (srv : Server σ) (c : Client σ) (w w1 w2 : σ) (P F : List String)
    (hs : s.agent.server = some srv) (hc : s.agent.client = some c)
    (hP : srv.RaftPeers w = ((P, none), w1)) (hF : c.ServerRPCAddrs w1 = (F, w2))
    (_hne : P ≠ []) (hPd : P.Nodup) (hFd : F.Nodup) (hdis : ∀ a ∈ P, a ∉ F) :
    listServers E s req w = ((Response.peers (P ++ F), none), w2) := by
  rw [listServers_of_roles E s req srv c w w1 w2 P F hs hc hP hF,
    keepFirst_of_nodup (P ++ F) (List.Nodup.append hPd hFd (fun a ha hf => hdis a ha hf))]

theorem listServers_source_precedence_witness :
    (raftServer (["10.0.0.5:4647", "10.0.0.6:4647"], none)).RaftPeers []
      = ((["10.0.0.5:4647", "10.0.0.6:4647"], none), [Call.RaftPeers])
    ∧ ["10.0.0.5:4647", "10.0.0.6:4647"] ≠ []
    ∧ ["10.0.0.5:4647", "10.0.0.6:4647"].Nodup
    ∧ ["10.0.0.1:4647"].Nodup
    ∧ (∀ a ∈ ["10.0.0.5:4647", "10.0.0.6:4647"], a ∉ ["10.0.0.1:4647"])
    ∧ listServers "Invalid method"
        (recordingHTTPServer (some (raftServer (["10.0.0.5:4647", "10.0.0.6:4647"], none)))
          (some (recordingClient ["10.0.0.1:4647"] fun _ => true)))
        (mkRequest "GET" [] []) []
      = ((Response.peers ["10.0.0.5:4647", "10.0.0.6:4647", "10.0.0.1:4647"], none),
          [Call.RaftPeers, Call.ServerRPCAddrs]) :=
  ⟨rfl, by decide, by decide, by decide, by decide,
    listServers_source_precedence "Invalid method"
      (recordingHTTPServer (some (raftServer (["10.0.0.5:4647", "10.0.0.6:4647"], none)))
        (some (recordingClient ["10.0.0.1:4647"] fun _ => true)))
      (mkRequest "GET" [] []) (raftServer (["10.0.0.5:4647", "10.0.0.6:4647"], none))
      (recordingClient ["10.0.0.1:4647"] fun _ => true) [] [Call.RaftPeers]
      [Call.RaftPeers, Call.ServerRPCAddrs] ["10.0.0.5:4647", "10.0.0.6:4647"]
      ["10.0.0.1:4647"] rfl rfl rfl rfl (by decide) (by decide) (by decide) (by decide)⟩

/-- C3, as stated, fails: on a node with neither role a GET server-list
request does not return an empty sequence without error; it returns no list
and the 501 coded error. -/
theorem listServers_neither_role_counterexample :
    AgentServersRequest "Invalid method" (recordingHTTPServer none none)
        (mkRequest "GET" [] []) []
      = ((Response.nil, some (GoError.coded 501 "Invalid method")), [])
    ∧ (AgentServersRequest "Invalid method" (recordingHTTPServer none none)
        (mkRequest "GET" [] []) []).1 ≠ (Response.peers [], none) := by
  decide

/-- C3, amended: on a node that has neither the server role nor the client
role, a GET server-list request returns no address list and the 501 coded
error, and invokes no collaborator primitive. -/
theorem listServers_neither_role {σ : Type} (E : String) (s : HTTPServer σ)
    (req : Request) (w : σ) (hm : req.Method = "GET")
    (_hs : s.agent.server = none) (hc : s.agent.client = none) :
    AgentServersRequest E s req w = ((Response.nil, some (CodedError 501 E)), w) := by
  rw [AgentServersRequest_get E s req w hm, listServers_no_client E s req w hc]

theorem listServers_neither_role_witness :
    (mkRequest "GET" [] []).Method = "GET"
    ∧ (recordingHTTPServer none none).agent.server = none
    ∧ (recordingHTTPServer none none).agent.client = none
    ∧ AgentServersRequest "Invalid method" (recordingHTTPServer none none)
        (mkRequest "GET" [] []) []
      = ((Response.nil, some (CodedError 501 "Invalid method")), []) :=
  ⟨rfl, rfl, rfl,
    listServers_neither_role "Invalid method" (recordingHTTPServer none none)
      (mkRequest "GET" [] []) [] rfl rfl rfl⟩

/-- C4, as stated, fails: on a node with the server role only whose consensus
peer query returns the single address 10.0.0.5:4647, a GET server-list request
does not return that sequence; it returns no list and the 501 coded error,
and the consensus peers are not queried. -/
theorem listServers_server_only_counterexample :
    AgentServersRequest "Invalid method"
        (recordingHTTPServer (some (raftServer (["10.0.0.5:4647"], none))) none)
        (mkRequest "GET" [] []) []
      = ((Response.nil, some (GoError.coded 501 "Invalid method")), [])
    ∧ (AgentServersRequest "Invalid method"
        (recordingHTTPServer (some (raftServer (["10.0.0.5:4647"], none))) none)
        (mkRequest "GET" [] []) []).1 ≠ (Response.peers ["10.0.0.5:4647"], none) := by
  decide

/-- C4, amended: on a node with the server role only, a GET server-list
request returns no address list and the 501 coded error without querying the
consensus peers, whatever that query would return; a duplicate-free list `P`
returned without error by the consensus peer query is returned exactly, with
no error, when the node also has the client role and its fallback-address
query returns the empty list. -/
theorem listServers_server_only {σ : Type} (E : String) (s : HTTPServer σ)
    (req : Request) (srv : Server σ) (w : σ)
    (hm : req.Method = "GET") (hs : s.agent.server = some srv) :
    (s.agent.client = none →
        AgentServersRequest E s req w = ((Response.nil, some (CodedError 501 E)), w))
      ∧ (∀ (P : List String) (w1 : σ) (c : Client σ) (w2 : σ),
          srv.RaftPeers w = ((P, none), w1) → P.Nodup →
          s.agent.client = some c → c.ServerRPCAddrs w1 = ([], w2) →
          AgentServersRequest E s req w = ((Response.peers P, none), w2)) := by
  constructor
  · intro hc
    rw [AgentServersRequest_get E s req w hm, listServers_no_client E s req w hc]
  · intro P w1 c w2 hP hPd hc hF
    rw [AgentServersRequest_get E s req w hm,
      listServers_of_roles E s req srv c w w1 w2 P [] hs hc hP hF, List.append_nil,
      keepFirst_of_nodup P hPd]

theorem listServers_server_only_witness :
    AgentServersRequest "Invalid method"
        (recordingHTTPServer (some (raftServer (["10.0.0.5:4647"], none))) none)
        (mkRequest "GET" [] []) []
      = ((Response.nil, some (CodedError 501 "Invalid method")), [])
    ∧ AgentServersRequest "Invalid method"
        (recordingHTTPServer
          (some (raftServer (["a", "a"], some (GoError.plain "no leader")))) none)
        (mkRequest "GET" [] []) []
      = ((Response.nil, some (CodedError 501 "Invalid method")), [])
    ∧ AgentServersRequest "Invalid method"
        (recordingHTTPServer (some (raftServer (["10.0.0.5:4647"], none)))
          (some (recordingClient [] fun _ => true)))
        (mkRequest "GET" [] []) []
      = ((Response.peers ["10.0.0.5:4647"], none), [Call.RaftPeers, Call.ServerRPCAddrs]) :=
  ⟨(listServers_server_only "Invalid method"
      (recordingHTTPServer (some (raftServer (["10.0.0.5:4647"], none))) none)
      (mkRequest "GET" [] []) (raftServer (["10.0.0.5:4647"], none)) [] rfl rfl).1 rfl,
    (listServers_server_only "Invalid method"
      (recordingHTTPServer
        (some (raftServer (["a", "a"], some (GoError.plain "no leader")))) none)
      (mkRequest "GET" [] []) (raftServer (["a", "a"], some (GoError.plain "no leader"))) []
      rfl rfl).1 rfl,
    (listServers_server_only "Invalid method"
      (recordingHTTPServer (some (raftServer (["10.0.0.5:4647"], none)))
        (some (recordingClient [] fun _ => true)))
      (mkRequest "GET" [] []) (raftServer (["10.0.0.5:4647"], none)) [] rfl rfl).2
      ["10.0.0.5:4647"] [Call.RaftPeers] (recordingClient [] fun _ => true)
      [Call.RaftPeers, Call.ServerRPCAddrs] rfl (by decide) rfl rfl⟩

/-- C5: on a client- and server-capable node, when the consensus peer query
returns an error `e`, `listServers` returns no address list and exactly `e`,
whatever the client holds; the world is the one the consensus query left, so
the fallback addresses are not even queried. -/
theorem listServers_raft_error {σ : Type} (E : String) (s : HTTPServer σ)
    (req : Request) (srv : Server σ) (c : Client σ) (w w1 : σ) (P : List String)
    (e : GoError) (hs : s.agent.server = some srv) (hc : s.agent.client = some c)
    (hP : srv.RaftPeers w = ((P, some e), w1)) :
    listServers E s req w = ((Response.nil, some e), w1) := by
  simp only [listServers, Agent.Client, hc, hs, hP]

theorem listServers_raft_error_witness :
    (raftServer (["10.0.0.5:4647"], some (GoError.plain "no leader"))).RaftPeers []
      = ((["10.0.0.5:4647"], some (GoError.plain "no leader")), [Call.RaftPeers])
    ∧ listServers "Invalid method"
        (recordingHTTPServer
          (some (raftServer (["10.0.0.5:4647"], some (GoError.plain "no leader"))))
          (some (recordingClient ["10.0.0.1:4647"] fun _ => true)))
        (mkRequest "GET" [] []) []
      = ((Response.nil, some (GoError.plain "no leader")), [Call.RaftPeers]) :=
  ⟨rfl,
    listServers_raft_error "Invalid method"
      (recordingHTTPServer
        (some (raftServer (["10.0.0.5:4647"], some (GoError.plain "no leader"))))
        (some (recordingClient ["10.0.0.1:4647"] fun _ => true)))
      (mkRequest "GET" [] []) (raftServer (["10.0.0.5:4647"], some (GoError.plain "no leader")))
      (recordingClient ["10.0.0.1:4647"] fun _ => true) [] [Call.RaftPeers]
      ["10.0.0.5:4647"] (GoError.plain "no leader") rfl rfl rfl⟩

/-! ## Role gating, validation and the gossip operations -/

/-- C6: role gating.  With an allowed method, `AgentJoinRequest`,
`AgentMembersRequest` and `AgentForceLeaveRequest` on a node without the
server role, and `updateServers` (also reached through `AgentServersRequest`
with PUT or POST) on a node without the client role, each return the 501
coded error, whatever the request parameters, and return the world they were
given: no collaborator primitive is invoked. -/
theorem role_gating {σ : Type} (E : String) (statusString : Int → String)
    (s t : HTTPServer σ) (put get : Request) (w : σ)
    (hs : s.agent.server = none) (ht : t.agent.client = none)
    (hput : put.Method = "PUT" ∨ put.Method = "POST") (hget : get.Method = "GET") :
    AgentJoinRequest E s put w = ((Response.nil, some (CodedError 501 E)), w)
      ∧ AgentMembersRequest E statusString s get w
          = ((Response.nil, some (CodedError 501 E)), w)
      ∧ AgentForceLeaveRequest E s put w = ((Response.nil, some (CodedError 501 E)), w)
      ∧ (∀ req : Request, updateServers E t req w
          = ((Response.nil, some (CodedError 501 E)), w))
      ∧ AgentServersRequest E t put w = ((Response.nil, some (CodedError 501 E)), w) := by
  have hnot : ¬ (put.Method ≠ "PUT" ∧ put.Method ≠ "POST") := by
    rintro ⟨h1, h2⟩
    rcases hput with h | h
    · exact h1 h
    · exact h2 h
  refine ⟨?_, ?_, ?_, ?_, ?_⟩
  · simp only [AgentJoinRequest, if_neg hnot, Agent.Server, hs]
  · simp only [AgentMembersRequest, hget, ne_eq, not_true_eq_false, if_false, Agent.Server, hs]
  · simp only [AgentForceLeaveRequest, if_neg hnot, Agent.Server, hs]
  · intro req
    simp only [updateServers, Agent.Client, ht]
  · simp only [AgentServersRequest, if_pos hput, updateServers, Agent.Client, ht]

theorem role_gating_witness :
    (recordingHTTPServer none (some (recordingClient [] fun _ => true))).agent.server = none
    ∧ (recordingHTTPServer
        (some (gossipServer (fun _ => (1, none)) [] fun _ => none)) none).agent.client = none
    ∧ ((mkRequest "PUT" ["1.2.3.4:4648"] ["node1"]).Method = "PUT"
        ∨ (mkRequest "PUT" ["1.2.3.4:4648"] ["node1"]).Method = "POST")
    ∧ (mkRequest "GET" [] []).Method = "GET"
    ∧ AgentJoinRequest "Invalid method"
        (recordingHTTPServer none (some (recordingClient [] fun _ => true)))
        (mkRequest "PUT" ["1.2.3.4:4648"] ["node1"]) []
      = ((Response.nil, some (CodedError 501 "Invalid method")), [])
    ∧ AgentServersRequest "Invalid method"
        (recordingHTTPServer (some (gossipServer (fun _ => (1, none)) [] fun _ => none)) none)
        (mkRequest "PUT" ["1.2.3.4:4648"] ["node1"]) []
      = ((Response.nil, some (CodedError 501 "Invalid method")), []) :=
  ⟨rfl, rfl, Or.inl rfl, rfl,
    (role_gating "Invalid method" sampleStatusString
      (recordingHTTPServer none (some (recordingClient [] fun _ => true)))
      (recordingHTTPServer (some (gossipServer (fun _ => (1, none)) [] fun _ => none)) none)
      (mkRequest "PUT" ["1.2.3.4:4648"] ["node1"]) (mkRequest "GET" [] []) []
      rfl rfl (Or.inl rfl) rfl).1,
    (role_gating "Invalid method" sampleStatusString
      (recordingHTTPServer none (some (recordingClient [] fun _ => true)))
      (recordingHTTPServer (some (gossipServer (fun _ => (1, none)) [] fun _ => none)) none)
      (mkRequest "PUT" ["1.2.3.4:4648"] ["node1"]) (mkRequest "GET" [] []) []
      rfl rfl (Or.inl rfl) rfl).2.2.2.2⟩

/-- C7: fail-fast validation.  On a node holding the required role and with an
allowed method, Join with an empty address list, ForceLeave with an empty node
name and Register with an empty address list each return the 400 coded error
and the world they were given: the gossip join, the removal and the add-server
primitives are not invoked. -/
theorem validation_fail_fast {σ : Type} (E : String) (s t : HTTPServer σ)
    (srv : Server σ) (c : Client σ) (jr fr rr : Request) (w : σ)
    (hs : s.agent.server = some srv) (ht : t.agent.client = some c)
    (hjm : jr.Method = "PUT" ∨ jr.Method = "POST")
    (hfm : fr.Method = "PUT" ∨ fr.Method = "POST")
    (hrm : rr.Method = "PUT" ∨ rr.Method = "POST")
    (hja : jr.URL.Query "address" = []) (hfn : Values.Get fr.URL.Query "node" = "")
    (hra : rr.URL.Query "address" = []) :
    AgentJoinRequest E s jr w
        = ((Response.nil, some (CodedError 400 "missing address to join")), w)
      ∧ AgentForceLeaveRequest E s fr w
        = ((Response.nil, some (CodedError 400 "missing node to force leave")), w)
      ∧ updateServers E t rr w
        = ((Response.nil, some (CodedError 400 "missing server address")), w)
      ∧ AgentServersRequest E t rr w
        = ((Response.nil, some (CodedError 400 "missing server address")), w) := by
  have hj : ¬ (jr.Method ≠ "PUT" ∧ jr.Method ≠ "POST") := by
    rintro ⟨h1, h2⟩
    rcases hjm with h | h
    · exact h1 h
    · exact h2 h
  have hf : ¬ (fr.Method ≠ "PUT" ∧ fr.Method ≠ "POST") := by
    rintro ⟨h1, h2⟩
    rcases hfm with h | h
    · exact h1 h
    · exact h2 h
  have hu : updateServers E t rr w
      = ((Response.nil, some (CodedError 400 "missing server address")), w) := by
    simp only [updateServers, Agent.Client, ht, hra, List.length_nil, if_true]
  refine ⟨?_, ?_, hu, ?_⟩
  · simp only [AgentJoinRequest, if_neg hj, Agent.Server, hs, hja, List.length_nil, if_true]
  · simp only [AgentForceLeaveRequest, if_neg hf, Agent.Server, hs, hfn, if_true]
  · simp only [AgentServersRequest, if_pos hrm, hu]

theorem validation_fail_fast_witness :
    (recordingHTTPServer (some (gossipServer (fun _ => (1, none)) [] fun _ => none))
        (some (recordingClient [] fun _ => true))).agent.server
      = some (gossipServer (fun _ => (1, none)) [] fun _ => none)
    ∧ (mkRequest "PUT" [] ["node1"]).URL.Query "address" = []
    ∧ Values.Get (mkRequest "POST" ["1.2.3.4:4648"] []).URL.Query "node" = ""
    ∧ AgentJoinRequest "Invalid method"
        (recordingHTTPServer (some (gossipServer (fun _ => (1, none)) [] fun _ => none))
          (some (recordingClient [] fun _ => true)))
        (mkRequest "PUT" [] ["node1"]) []
      = ((Response.nil, some (CodedError 400 "missing address to join")), [])
    ∧ AgentForceLeaveRequest "Invalid method"
        (recordingHTTPServer (some (gossipServer (fun _ => (1, none)) [] fun _ => none))
          (some (recordingClient [] fun _ => true)))
        (mkRequest "POST" ["1.2.3.4:4648"] []) []
      = ((Response.nil, some (CodedError 400 "missing node to force leave")), [])
    ∧ AgentServersRequest "Invalid method"
        (recordingHTTPServer (some (gossipServer (fun _ => (1, none)) [] fun _ => none))
          (some (recordingClient [] fun _ => true)))
        (mkRequest "PUT" [] ["node1"]) []
      = ((Response.nil, some (CodedError 400 "missing server address")), []) :=
  have h := validation_fail_fast "Invalid method"
    (recordingHTTPServer (some (gossipServer (fun _ => (1, none)) [] fun _ => none))
      (some (recordingClient [] fun _ => true)))
    (recordingHTTPServer (some (gossipServer (fun _ => (1, none)) [] fun _ => none))
      (some (recordingClient [] fun _ => true)))
    (gossipServer (fun _ => (1, none)) [] fun _ => none)
    (recordingClient [] fun _ => true)
    (mkRequest "PUT" [] ["node1"]) (mkRequest "POST" ["1.2.3.4:4648"] [])
    (mkRequest "PUT" [] ["node1"]) [] rfl rfl (Or.inl rfl) (Or.inr rfl) (Or.inl rfl)
    rfl rfl rfl
  ⟨rfl, rfl, rfl, h.1, h.2.1, h.2.2.2⟩

/-- C8: on a server-capable node, for every non-empty address list and every
pair `(n, err)` the gossip join primitive returns, `AgentJoinRequest` returns
no error and a result whose `NumJoined` is `n` and whose `Error` is the
message of `err`, or the empty string when `err` is nil; the primitive is
invoked once, with the addresses of the request. -/
theorem join_surfaces_count_and_error {σ : Type} (E : String) (s : HTTPServer σ)
    (srv : Server σ) (req : Request) (w w1 : σ) (n : Int) (err : Option GoError)
    (hs : s.agent.server = some srv)
    (hm : req.Method = "PUT" ∨ req.Method = "POST")
    (hne : req.URL.Query "address" ≠ [])
    (hJ : srv.Join (req.URL.Query "address") w = ((n, err), w1)) :
    AgentJoinRequest E s req w
        = ((Response.join { NumJoined := n, Error := (err.map GoError.Error).getD "" }, none),
            w1)
      ∧ (err = none → AgentJoinRequest E s req w
          = ((Response.join { NumJoined := n, Error := "" }, none), w1)) := by
  have hnot : ¬ (req.Method ≠ "PUT" ∧ req.Method ≠ "POST") := by
    rintro ⟨h1, h2⟩
    rcases hm with h | h
    · exact h1 h
    · exact h2 h
  have hlen : ¬ (req.URL.Query "address").length = 0 := by
    intro h
    exact hne (List.length_eq_zero.1 h)
  have hmain : AgentJoinRequest E s req w
      = ((Response.join { NumJoined := n, Error := (err.map GoError.Error).getD "" }, none),
          w1) := by
    simp only [AgentJoinRequest, if_neg hnot, Agent.Server, hs, if_neg hlen, hJ]
    cases err <;> rfl
  refine ⟨hmain, ?_⟩
  intro he
  rw [hmain, he]
  rfl

theorem join_surfaces_count_and_error_witness :
    (mkRequest "PUT" ["1.2.3.4:4648"] []).URL.Query "address" ≠ []
    ∧ (gossipServer (fun addrs => (addrs.length, none)) [] fun _ => none).Join
        ((mkRequest "PUT" ["1.2.3.4:4648"] []).URL.Query "address") []
      = ((1, none), [Call.Join ["1.2.3.4:4648"]])
    ∧ AgentJoinRequest "Invalid method"
        (recordingHTTPServer
          (some (gossipServer (fun addrs => (addrs.length, none)) [] fun _ => none)) none)
        (mkRequest "PUT" ["1.2.3.4:4648"] []) []
      = ((Response.join { NumJoined := 1, Error := "" }, none),
          [Call.Join ["1.2.3.4:4648"]]) :=
  ⟨by decide, rfl,
    (join_surfaces_count_and_error "Invalid method"
      (recordingHTTPServer
        (some (gossipServer (fun addrs => (addrs.length, none)) [] fun _ => none)) none)
      (gossipServer (fun addrs => (addrs.length, none)) [] fun _ => none)
      (mkRequest "PUT" ["1.2.3.4:4648"] []) [] [Call.Join ["1.2.3.4:4648"]] 1 none
      rfl (Or.inl rfl) (by decide) rfl).2 rfl⟩

/-- C9: on a server-capable node, for every membership snapshot `ms` the gossip
collaborator returns, a GET `AgentMembersRequest` returns without error the
list of the translations of the members of `ms`: it has as many entries as
`ms`, its i-th entry is `nomadMember` of the i-th member, and `nomadMember`
copies name, address, port, tags and the six version fields unchanged and
renders the status as the string form of the raw status. -/
theorem members_in_collaborator_order {σ : Type} (E : String)
    (statusString : Int → String) (s : HTTPServer σ) (srv : Server σ) (req : Request)
    (w w1 : σ) (ms : List SerfMember)
    (hs : s.agent.server = some srv) (hm : req.Method = "GET")
    (hM : srv.Members w = (ms, w1)) :
    AgentMembersRequest E statusString s req w
        = ((Response.members (ms.map (nomadMember statusString)), none), w1)
      ∧ (ms.map (nomadMember statusString)).length = ms.length
      ∧ (∀ (i : Nat) (h : i < ms.length),
          (ms.map (nomadMember statusString))[i]?
            = some (nomadMember statusString (ms.get ⟨i, h⟩)))
      ∧ (∀ m : SerfMember,
          (nomadMember statusString m).Name = m.Name
          ∧ (nomadMember statusString m).Addr = m.Addr
          ∧ (nomadMember statusString m).Port = m.Port
          ∧ (nomadMember statusString m).Tags = m.Tags
          ∧ (nomadMember statusString m).Status = statusString m.Status
          ∧ (nomadMember statusString m).ProtocolMin = m.ProtocolMin
          ∧ (nomadMember statusString m).ProtocolMax = m.ProtocolMax
          ∧ (nomadMember statusString m).ProtocolCur = m.ProtocolCur
          ∧ (nomadMember statusString m).DelegateMin = m.DelegateMin
          ∧ (nomadMember statusString m).DelegateMax = m.DelegateMax
          ∧ (nomadMember statusString m).DelegateCur = m.DelegateCur) := by
  refine ⟨?_, List.length_map _ _, ?_, ?_⟩
  · simp only [AgentMembersRequest, hm, ne_eq, not_true_eq_false, if_false, Agent.Server, hs,
      hM]
  · intro i h
    rw [List.getElem?_map, List.getElem?_eq_getElem h]
    rfl
  · intro m
    exact ⟨rfl, rfl, rfl, rfl, rfl, rfl, rfl, rfl, rfl, rfl, rfl⟩

theorem members_in_collaborator_order_witness :
    (gossipServer (fun _ => (0, none))
        [mkSerfMember "b" [10, 0, 0, 2] 4648 [("role", "nomad")] 4,
          mkSerfMember "a" [10, 0, 0, 1] 4648 [] 1,
          mkSerfMember "b" [10, 0, 0, 2] 4648 [("role", "nomad")] 4]
        fun _ => none).Members []
      = ([mkSerfMember "b" [10, 0, 0, 2] 4648 [("role", "nomad")] 4,
          mkSerfMember "a" [10, 0, 0, 1] 4648 [] 1,
          mkSerfMember "b" [10, 0, 0, 2] 4648 [("role", "nomad")] 4], [Call.Members])
    ∧ AgentMembersRequest "Invalid method" sampleStatusString
        (recordingHTTPServer
          (some (gossipServer (fun _ => (0, none))
            [mkSerfMember "b" [10, 0, 0, 2] 4648 [("role", "nomad")] 4,
              mkSerfMember "a" [10, 0, 0, 1] 4648 [] 1,
              mkSerfMember "b" [10, 0, 0, 2] 4648 [("role", "nomad")] 4]
            fun _ => none)) none)
        (mkRequest "GET" [] []) []
      = ((Response.members
            ([mkSerfMember "b" [10, 0, 0, 2] 4648 [("role", "nomad")] 4,
              mkSerfMember "a" [10, 0, 0, 1] 4648 [] 1,
              mkSerfMember "b" [10, 0, 0, 2] 4648 [("role", "nomad")] 4].map
              (nomadMember sampleStatusString)), none), [Call.Members]) :=
  ⟨rfl,
    (members_in_collaborator_order "Invalid method" sampleStatusString
      (recordingHTTPServer
        (some (gossipServer (fun _ => (0, none))
          [mkSerfMember "b" [10, 0, 0, 2] 4648 [("role", "nomad")] 4,
            mkSerfMember "a" [10, 0, 0, 1] 4648 [] 1,
            mkSerfMember "b" [10, 0, 0, 2] 4648 [("role", "nomad")] 4]
          fun _ => none)) none)
      (gossipServer (fun _ => (0, none))
        [mkSerfMember "b" [10, 0, 0, 2] 4648 [("role", "nomad")] 4,
          mkSerfMember "a" [10, 0, 0, 1] 4648 [] 1,
          mkSerfMember "b" [10, 0, 0, 2] 4648 [("role", "nomad")] 4]
        fun _ => none)
      (mkRequest "GET" [] []) [] [Call.Members]
      [mkSerfMember "b" [10, 0, 0, 2] 4648 [("role", "nomad")] 4,
        mkSerfMember "a" [10, 0, 0, 1] 4648 [] 1,
        mkSerfMember "b" [10, 0, 0, 2] 4648 [("role", "nomad")] 4]
      rfl rfl rfl).1⟩

/-- C10: on a server-capable node, for every non-empty node name, a PUT or
POST `AgentForceLeaveRequest` returns a nil body together with exactly what
one invocation of the removal primitive on that name returns, nil or an
error, and the world that one invocation leaves. -/
theorem force_leave_forwards_result {σ : Type} (E : String) (s : HTTPServer σ)
    (srv : Server σ) (req : Request) (w : σ)
    (hs : s.agent.server = some srv)
    (hm : req.Method = "PUT" ∨ req.Method = "POST")
    (hn : Values.Get req.URL.Query "node" ≠ "") :
    AgentForceLeaveRequest E s req w
        = ((Response.nil, (srv.RemoveFailedNode (Values.Get req.URL.Query "node") w).1),
            (srv.RemoveFailedNode (Values.Get req.URL.Query "node") w).2)
      ∧ (∀ (e : GoError) (w1 : σ),
          srv.RemoveFailedNode (Values.Get req.URL.Query "node") w = (some e, w1) →
          AgentForceLeaveRequest E s req w = ((Response.nil, some e), w1))
      ∧ (∀ w1 : σ, srv.RemoveFailedNode (Values.Get req.URL.Query "node") w = (none, w1) →
          AgentForceLeaveRequest E s req w = ((Response.nil, none), w1)) := by
  have hnot : ¬ (req.Method ≠ "PUT" ∧ req.Method ≠ "POST") := by
    rintro ⟨h1, h2⟩
    rcases hm with h | h
    · exact h1 h
    · exact h2 h
  have hmain : AgentForceLeaveRequest E s req w
      = ((Response.nil, (srv.RemoveFailedNode (Values.Get req.URL.Query "node") w).1),
          (srv.RemoveFailedNode (Values.Get req.URL.Query "node") w).2) := by
    simp only [AgentForceLeaveRequest, if_neg hnot, Agent.Server, hs, if_neg hn]
  refine ⟨hmain, ?_, ?_⟩
  · intro e w1 h
    rw [hmain, h]
  · intro w1 h
    rw [hmain, h]

theorem force_leave_forwards_result_witness :
    Values.Get (mkRequest "PUT" [] ["gone"]).URL.Query "node" ≠ ""
    ∧ AgentForceLeaveRequest "Invalid method"
        (recordingHTTPServer
          (some (gossipServer (fun _ => (0, none)) []
            fun node => if node = "gone" then none else some (GoError.plain "busy"))) none)
        (mkRequest "PUT" [] ["gone"]) []
      = ((Response.nil, none), [Call.RemoveFailedNode "gone"]) :=
  ⟨by decide,
    (force_leave_forwards_result "Invalid method"
      (recordingHTTPServer
        (some (gossipServer (fun _ => (0, none)) []
          fun node => if node = "gone" then none else some (GoError.plain "busy"))) none)
      (gossipServer (fun _ => (0, none)) []
        fun node => if node = "gone" then none else some (GoError.plain "busy"))
      (mkRequest "PUT" [] ["gone"]) [] rfl (Or.inl rfl) (by decide)).2.2
      [Call.RemoveFailedNode "gone"] rfl⟩

/-! ## Method gating and the self descriptor -/

/-- C13: method gating.  Each of the five request handlers returns the 405
coded error for every method string outside its listed set (self and members:
GET; join and force-leave: PUT, POST; servers: GET, PUT, POST), whatever the
roles of the node and the request parameters, and returns the world it was
given: the refusal comes before any role check or collaborator call. -/
theorem method_gating {σ : Type} (E : String) (statusString : Int → String)
    (s : HTTPServer σ) (req : Request) (w : σ) :
    (req.Method ≠ "GET" →
        AgentSelfRequest E statusString s req w
          = ((Response.nil, some (CodedError 405 E)), w))
      ∧ (req.Method ≠ "PUT" → req.Method ≠ "POST" →
        AgentJoinRequest E s req w = ((Response.nil, some (CodedError 405 E)), w))
      ∧ (req.Method ≠ "GET" →
        AgentMembersRequest E statusString s req w
          = ((Response.nil, some (CodedError 405 E)), w))
      ∧ (req.Method ≠ "PUT" → req.Method ≠ "POST" →
        AgentForceLeaveRequest E s req w = ((Response.nil, some (CodedError 405 E)), w))
      ∧ (req.Method ≠ "GET" → req.Method ≠ "PUT" → req.Method ≠ "POST" →
        AgentServersRequest E s req w = ((Response.nil, some (CodedError 405 E)), w)) := by
  refine ⟨?_, ?_, ?_, ?_, ?_⟩
  · intro hg
    simp only [AgentSelfRequest, if_pos hg]
  · intro hp hq
    simp only [AgentJoinRequest, if_pos (And.intro hp hq)]
  · intro hg
    simp only [AgentMembersRequest, if_pos hg]
  · intro hp hq
    simp only [AgentForceLeaveRequest, if_pos (And.intro hp hq)]
  · intro hg hp hq
    have hn : ¬ (req.Method = "PUT" ∨ req.Method = "POST") := by
      rintro (h | h)
      · exact hp h
      · exact hq h
    simp only [AgentServersRequest, if_neg hn, if_neg hg]

theorem method_gating_witness :
    AgentSelfRequest "Invalid method" sampleStatusString
        (recordingHTTPServer (some (gossipServer (fun _ => (1, none)) [] fun _ => none))
          (some (recordingClient ["10.0.0.1:4647"] fun _ => true)))
        (mkRequest "DELETE" ["1.2.3.4:4648"] ["node1"]) []
      = ((Response.nil, some (CodedError 405 "Invalid method")), [])
    ∧ AgentJoinRequest "Invalid method"
        (recordingHTTPServer (some (gossipServer (fun _ => (1, none)) [] fun _ => none))
          (some (recordingClient ["10.0.0.1:4647"] fun _ => true)))
        (mkRequest "DELETE" ["1.2.3.4:4648"] ["node1"]) []
      = ((Response.nil, some (CodedError 405 "Invalid method")), [])
    ∧ AgentServersRequest "Invalid method"
        (recordingHTTPServer (some (gossipServer (fun _ => (1, none)) [] fun _ => none))
          (some (recordingClient ["10.0.0.1:4647"] fun _ => true)))
        (mkRequest "DELETE" ["1.2.3.4:4648"] ["node1"]) []
      = ((Response.nil, some (CodedError 405 "Invalid method")), []) :=
  have h := method_gating "Invalid method" sampleStatusString
    (recordingHTTPServer (some (gossipServer (fun _ => (1, none)) [] fun _ => none))
      (some (recordingClient ["10.0.0.1:4647"] fun _ => true)))
    (mkRequest "DELETE" ["1.2.3.4:4648"] ["node1"]) []
  ⟨h.1 (by decide), h.2.1 (by decide) (by decide),
    h.2.2.2.2 (by decide) (by decide) (by decide)⟩

/-- C14: for every GET request `AgentSelfRequest` returns no error, whatever
the roles of the node.  Its `Member` field is `nomadMember` of the local
member the gossip collaborator returns when the node is server-capable, and
`nomadMember` of the zero-valued member (empty name, no address, no tags, zero
port and versions) when it is not. -/
theorem self_always_succeeds {σ : Type} (E : String) (statusString : Int → String)
    (s : HTTPServer σ) (req : Request) (w : σ) (hm : req.Method = "GET") :
    (AgentSelfRequest E statusString s req w).1.2 = none
      ∧ (∀ srv : Server σ, s.agent.server = some srv →
          AgentSelfRequest E statusString s req w
            = ((Response.self
                  { Config := s.agent.config
                    Member := nomadMember statusString (srv.LocalMember w).1
                    Stats := (s.agent.Stats (srv.LocalMember w).2).1 }, none),
                (s.agent.Stats (srv.LocalMember w).2).2))
      ∧ (s.agent.server = none →
          AgentSelfRequest E statusString s req w
            = ((Response.self
                  { Config := s.agent.config
                    Member := nomadMember statusString zeroSerfMember
                    Stats := (s.agent.Stats w).1 }, none),
                (s.agent.Stats w).2))
      ∧ nomadMember statusString zeroSerfMember
          = { Name := "", Addr := [], Port := 0, Tags := [], Status := statusString 0,
              ProtocolMin := 0, ProtocolMax := 0, ProtocolCur := 0, DelegateMin := 0,
              DelegateMax := 0, DelegateCur := 0 } := by
  have hg : ¬ req.Method ≠ "GET" := fun h => h hm
  refine ⟨?_, ?_, ?_, rfl⟩
  · simp only [AgentSelfRequest, if_neg hg]
  · intro srv hs
    simp only [AgentSelfRequest, if_neg hg, Agent.Server, hs]
  · intro hs
    simp only [AgentSelfRequest, if_neg hg, Agent.Server, hs]

theorem self_always_succeeds_witness :
    (mkRequest "GET" [] []).Method = "GET"
    ∧ AgentSelfRequest "Invalid method" sampleStatusString
        (recordingHTTPServer none (some (recordingClient [] fun _ => true)))
        (mkRequest "GET" [] []) []
      = ((Response.self
            { Config := { digest := "" }
              Member := nomadMember sampleStatusString zeroSerfMember
              Stats := [("nomad", [("leader", "true")])] }, none), [Call.Stats])
    ∧ (AgentSelfRequest "Invalid method" sampleStatusString
        (recordingHTTPServer
          (some (recordingServer (mkSerfMember "a" [10, 0, 0, 1] 4648 [] 1)
            (fun _ => (0, none)) [] (fun _ => none) ([], none))) none)
        (mkRequest "GET" [] []) []).1.2 = none :=
  ⟨rfl,
    (self_always_succeeds "Invalid method" sampleStatusString
      (recordingHTTPServer none (some (recordingClient [] fun _ => true)))
      (mkRequest "GET" [] []) [] rfl).2.2.1 rfl,
    (self_always_succeeds "Invalid method" sampleStatusString
      (recordingHTTPServer
        (some (recordingServer (mkSerfMember "a" [10, 0, 0, 1] 4648 [] 1)
          (fun _ => (0, none)) [] (fun _ => none) ([], none))) none)
      (mkRequest "GET" [] []) [] rfl).1⟩

/-! ## Registration -/

theorem offeredCalls_append (l1 l2 : List Call) :
    offeredCalls (l1 ++ l2) = offeredCalls l1 ++ offeredCalls l2 := by
  induction l1 with
  | nil => rfl
  | cons x t ih =>
    cases x <;> simp [offeredCalls, ih]

theorem updateServersStep_offered {σ : Type} (s : HTTPServer σ) (c : Client σ)
    (offered : σ → List String)
    (hadd : ∀ a w, offered (c.AddPrimaryServerToRpcProxy a w).2 = offered w ++ [a])
    (hlog : ∀ f x w, offered (s.agent.logger.Printf f x w) = offered w)
    (w : σ) (a : String) :
    offered (updateServersStep s c w a) = offered w ++ [a] := by
  have h := hadd a (s.agent.logger.Printf
    "[TRACE] Adding server %s to the client's primary server list" a w)
  rw [hlog] at h
  unfold updateServersStep
  rcases hr : c.AddPrimaryServerToRpcProxy a (s.agent.logger.Printf
    "[TRACE] Adding server %s to the client's primary server list" a w) with ⟨b, w2⟩
  rw [hr] at h
  cases b
  · simp only [hr, hlog]
    exact h
  · simp only [hr]
    exact h

theorem foldl_updateServersStep_offered {σ : Type} (s : HTTPServer σ) (c : Client σ)
    (offered : σ → List String)
    (hadd : ∀ a w, offered (c.AddPrimaryServerToRpcProxy a w).2 = offered w ++ [a])
    (hlog : ∀ f x w, offered (s.agent.logger.Printf f x w) = offered w)
    (addrs : List String) :
    ∀ w : σ, offered (addrs.foldl (updateServersStep s c) w) = offered w ++ addrs := by
  induction addrs with
  | nil =>
    intro w
    simp
  | cons a t ih =>
    intro w
    rw [List.foldl_cons, ih, updateServersStep_offered s c offered hadd hlog]
    simp

theorem updateServersStep_cache {σ : Type} (s : HTTPServer σ) (c : Client σ)
    (cache : σ → List String) (accept : String → Bool)
    (hacc : ∀ a w, (c.AddPrimaryServerToRpcProxy a w).1 = accept a)
    (hadd : ∀ a w, cache (c.AddPrimaryServerToRpcProxy a w).2
      = if accept a then cache w ++ [a] else cache w)
    (hlog : ∀ f x w, cache (s.agent.logger.Printf f x w) = cache w)
    (w : σ) (a : String) :
    cache (updateServersStep s c w a) = cache w ++ [a].filter accept := by
  have h := hadd a (s.agent.logger.Printf
    "[TRACE] Adding server %s to the client's primary server list" a w)
  have hb := hacc a (s.agent.logger.Printf
    "[TRACE] Adding server %s to the client's primary server list" a w)
  rw [hlog] at h
  unfold updateServersStep
  rcases hr : c.AddPrimaryServerToRpcProxy a (s.agent.logger.Printf
    "[TRACE] Adding server %s to the client's primary server list" a w) with ⟨b, w2⟩
  rw [hr] at h hb
  cases b
  · simp only [hr, hlog]
    rw [h]
    simp [← hb]
  · simp only [hr]
    rw [h]
    simp [← hb]

theorem foldl_updateServersStep_cache {σ : Type} (s : HTTPServer σ) (c : Client σ)
    (cache : σ → List String) (accept : String → Bool)
    (hacc : ∀ a w, (c.AddPrimaryServerToRpcProxy a w).1 = accept a)
    (hadd : ∀ a w, cache (c.AddPrimaryServerToRpcProxy a w).2
      = if accept a then cache w ++ [a] else cache w)
    (hlog : ∀ f x w, cache (s.agent.logger.Printf f x w) = cache w)
    (addrs : List String) :
    ∀ w : σ, cache (addrs.foldl (updateServersStep s c) w)
      = cache w ++ addrs.filter accept := by
  induction addrs with
  | nil =>
    intro w
    simp
  | cons a t ih =>
    intro w
    rw [List.foldl_cons, ih, updateServersStep_cache s c cache accept hacc hadd hlog,
      List.append_assoc, ← List.filter_append]
    rfl

theorem updateServers_cache {σ : Type} (E : String) (s : HTTPServer σ) (c : Client σ)
    (cache : σ → List String) (accept : String → Bool)
    (hc : s.agent.client = some c)
    (hacc : ∀ a w, (c.AddPrimaryServerToRpcProxy a w).1 = accept a)
    (hadd : ∀ a w, cache (c.AddPrimaryServerToRpcProxy a w).2
      = if accept a then cache w ++ [a] else cache w)
    (hlog : ∀ f x w, cache (s.agent.logger.Printf f x w) = cache w)
    (req : Request) (w : σ) :
    cache (updateServers E s req w).2
      = cache w ++ (req.URL.Query "address").filter accept := by
  by_cases hlen : (req.URL.Query "address").length = 0
  · have hnil : req.URL.Query "address" = [] := List.length_eq_zero.1 hlen
    simp [updateServers, Agent.Client, hc, hnil]
  · simp only [updateServers, Agent.Client, hc, if_neg hlen]
    exact foldl_updateServersStep_cache s c cache accept hacc hadd hlog _ w

theorem registerAll_cache {σ : Type} (E : String) (s : HTTPServer σ) (c : Client σ)
    (cache : σ → List String) (accept : String → Bool)
    (hc : s.agent.client = some c)
    (hacc : ∀ a w, (c.AddPrimaryServerToRpcProxy a w).1 = accept a)
    (hadd : ∀ a w, cache (c.AddPrimaryServerToRpcProxy a w).2
      = if accept a then cache w ++ [a] else cache w)
    (hlog : ∀ f x w, cache (s.agent.logger.Printf f x w) = cache w)
    (reqs : List Request) :
    ∀ w : σ, cache (registerAll E s reqs w)
      = cache w ++ (requestedAddresses reqs).filter accept := by
  induction reqs with
  | nil =>
    intro w
    simp [registerAll, requestedAddresses]
  | cons r t ih =>
    intro w
    have h := ih (updateServers E s r w).2
    rw [updateServers_cache E s c cache accept hc hacc hadd hlog] at h
    simp only [registerAll, List.foldl_cons] at h ⊢
    rw [h, requestedAddresses, List.filter_append, List.append_assoc]

theorem foldl_visit_of_known (M : List String) :
    ∀ acc : PeerAcc, (∀ a ∈ M, a ∈ acc.uniquePeers) → M.foldl PeerAcc.visit acc = acc := by
  induction M with
  | nil =>
    intro acc _
    rfl
  | cons a t ih =>
    intro acc h
    have ha : a ∈ acc.uniquePeers := h a (List.mem_cons_self a t)
    have hv : acc.visit a = acc := by simp [PeerAcc.visit, ha]
    rw [List.foldl_cons, hv]
    exact ih acc (fun b hb => h b (List.mem_cons_of_mem a hb))

theorem keepFirst_append_of_known (L M : List String) (h : ∀ a ∈ M, a ∈ L) :
    keepFirst (L ++ M) = keepFirst L := by
  have ht := PeerAcc.Tracks.foldl L PeerAcc.Tracks.start
  rw [List.nil_append] at ht
  rw [← foldl_visit_eq_keepFirst (L ++ M), List.foldl_append, foldl_visit_of_known M,
    foldl_visit_eq_keepFirst]
  intro a ha
  exact (ht.keys a).2 ((ht.mem a).2 (h a ha))

theorem listServers_client_only {σ : Type} (E : String) (s : HTTPServer σ) (c : Client σ)
    (req : Request) (w : σ) (hs : s.agent.server = none) (hc : s.agent.client = some c) :
    listServers E s req w
      = ((Response.peers (keepFirst (c.ServerRPCAddrs w).1), none),
          (c.ServerRPCAddrs w).2) := by
  simp only [listServers, Agent.Client, hc, hs, listServersClient]
  rw [foldl_visit_eq_keepFirst]

/-- C11: partial-batch tolerance.  On a client-capable node, for every
non-empty batch of addresses and whatever the registrar answers to each offer,
`updateServers` returns no body and no error, and the offers the registrar has
seen grow by exactly the addresses of the batch, each once, in request order.
When the registrar accepts by address and keeps the accepted ones, the
accepted addresses of the batch are all registered, in request order, also
those that follow a rejected one. -/
theorem updateServers_partial_batch {σ : Type} (E : String) (s : HTTPServer σ)
    (c : Client σ) (req : Request) (w : σ) (offered : σ → List String)
    (hc : s.agent.client = some c) (hne : req.URL.Query "address" ≠ [])
    (hoff : ∀ a w1, offered (c.AddPrimaryServerToRpcProxy a w1).2 = offered w1 ++ [a])
    (hlog : ∀ f x w1, offered (s.agent.logger.Printf f x w1) = offered w1) :
    (updateServers E s req w).1 = (Response.nil, none)
      ∧ offered (updateServers E s req w).2 = offered w ++ req.URL.Query "address"
      ∧ (∀ (registered : σ → List String) (accept : String → Bool),
          (∀ a w1, (c.AddPrimaryServerToRpcProxy a w1).1 = accept a) →
          (∀ a w1, registered (c.AddPrimaryServerToRpcProxy a w1).2
            = if accept a then registered w1 ++ [a] else registered w1) →
          (∀ f x w1, registered (s.agent.logger.Printf f x w1) = registered w1) →
          registered (updateServers E s req w).2
            = registered w ++ (req.URL.Query "address").filter accept) := by
  have hlen : ¬ (req.URL.Query "address").length = 0 := fun h =>
    hne (List.length_eq_zero.1 h)
  refine ⟨?_, ?_, ?_⟩
  · simp only [updateServers, Agent.Client, hc, if_neg hlen]
  · simp only [updateServers, Agent.Client, hc, if_neg hlen]
    exact foldl_updateServersStep_offered s c offered hoff hlog _ w
  · intro registered accept hacc hadd hlog2
    exact updateServers_cache E s c registered accept hc hacc hadd hlog2 req w

theorem updateServers_partial_batch_witness :
    (mkRequest "PUT" ["a", "b", "c"] []).URL.Query "address" ≠ []
    ∧ (updateServers "Invalid method"
        (recordingHTTPServer none (some (recordingClient [] fun a => a != "b")))
        (mkRequest "PUT" ["a", "b", "c"] []) []).1 = (Response.nil, none)
    ∧ offeredCalls (updateServers "Invalid method"
        (recordingHTTPServer none (some (recordingClient [] fun a => a != "b")))
        (mkRequest "PUT" ["a", "b", "c"] []) []).2 = ["a", "b", "c"]
    ∧ (offeredCalls (updateServers "Invalid method"
        (recordingHTTPServer none (some (recordingClient [] fun a => a != "b")))
        (mkRequest "PUT" ["a", "b", "c"] []) []).2).filter (fun a => a != "b")
      = ["a", "c"]
    ∧ (updateServers "Invalid method"
        (recordingHTTPServer none (some (recordingClient [] fun a => a != "b")))
        (mkRequest "PUT" ["a", "b", "c"] []) []).2
      = [Call.Printf "[TRACE] Adding server %s to the client's primary server list" "a",
          Call.AddPrimaryServerToRpcProxy "a",
          Call.Printf "[TRACE] Adding server %s to the client's primary server list" "b",
          Call.AddPrimaryServerToRpcProxy "b",
          Call.Printf "[ERR] Attempt to add server %q to client failed" "b",
          Call.Printf "[TRACE] Adding server %s to the client's primary server list" "c",
          Call.AddPrimaryServerToRpcProxy "c"] :=
  have h := updateServers_partial_batch "Invalid method"
    (recordingHTTPServer none (some (recordingClient [] fun a => a != "b")))
    (recordingClient [] fun a => a != "b") (mkRequest "PUT" ["a", "b", "c"] []) []
    offeredCalls rfl (by decide)
    (fun a w1 => by
      show offeredCalls (w1 ++ [Call.AddPrimaryServerToRpcProxy a]) = offeredCalls w1 ++ [a]
      rw [offeredCalls_append]
      rfl)
    (fun f x w1 => by
      show offeredCalls (w1 ++ [Call.Printf f x]) = offeredCalls w1
      rw [offeredCalls_append]
      exact List.append_nil _)
  ⟨by decide, h.1, h.2.1,
    (h.2.2 (fun l => (offeredCalls l).filter (fun a => a != "b")) (fun a => a != "b")
      (fun _ _ => rfl)
      (fun a w1 => by
        show (offeredCalls (w1 ++ [Call.AddPrimaryServerToRpcProxy a])).filter
            (fun a => a != "b")
          = if (a != "b") = true then (offeredCalls w1).filter (fun a => a != "b") ++ [a]
            else (offeredCalls w1).filter (fun a => a != "b")
        rw [offeredCalls_append, List.filter_append]
        by_cases hab : (a != "b") = true
        · simp [offeredCalls, hab]
        · simp [offeredCalls, hab])
      (fun f x w1 => by
        show (offeredCalls (w1 ++ [Call.Printf f x])).filter (fun a => a != "b")
          = (offeredCalls w1).filter (fun a => a != "b")
        rw [offeredCalls_append]
        simp [offeredCalls])).trans (by decide), by decide⟩

/-- C12: idempotent registration.  On a client-only node whose registrar is a
list to which each accepted address is appended and which starts empty, after
any sequence of register requests the server list is the list of the accepted
addresses with only the first occurrence of each kept, and no error: it holds
each accepted address once, in order of first registration; and a register
request whose addresses are all registered already leaves the server list as
it was. -/
theorem register_idempotent {σ : Type} (E : String) (s : HTTPServer σ) (c : Client σ)
    (cache : σ → List String) (accept : String → Bool) (w0 : σ)
    (reqs : List Request) (get : Request)
    (hs : s.agent.server = none) (hc : s.agent.client = some c)
    (hget : ∀ w, (c.ServerRPCAddrs w).1 = cache w)
    (hacc : ∀ a w, (c.AddPrimaryServerToRpcProxy a w).1 = accept a)
    (hadd : ∀ a w, cache (c.AddPrimaryServerToRpcProxy a w).2
      = if accept a then cache w ++ [a] else cache w)
    (hlog : ∀ f x w, cache (s.agent.logger.Printf f x w) = cache w)
    (h0 : cache w0 = []) :
    (listServers E s get (registerAll E s reqs w0)).1
        = (Response.peers (keepFirst ((requestedAddresses reqs).filter accept)), none)
      ∧ (keepFirst ((requestedAddresses reqs).filter accept)).Nodup
      ∧ (∀ a, a ∈ keepFirst ((requestedAddresses reqs).filter accept)
          ↔ a ∈ requestedAddresses reqs ∧ accept a = true)
      ∧ (keepFirst ((requestedAddresses reqs).filter accept)).Pairwise
          (fun a b => ((requestedAddresses reqs).filter accept).indexOf a
            < ((requestedAddresses reqs).filter accept).indexOf b)
      ∧ (∀ (req : Request) (w : σ), (∀ a ∈ req.URL.Query "address", a ∈ cache w) →
          (listServers E s get (updateServers E s req w).2).1
            = (listServers E s get w).1) := by
  have ht := keepFirst_tracks ((requestedAddresses reqs).filter accept)
  refine ⟨?_, ht.nodup, ?_, ht.order, ?_⟩
  · rw [listServers_client_only E s c get _ hs hc, hget,
      registerAll_cache E s c cache accept hc hacc hadd hlog, h0, List.nil_append]
  · intro a
    rw [← List.mem_filter]
    exact ht.mem a
  · intro req w hknown
    rw [listServers_client_only E s c get _ hs hc, listServers_client_only E s c get _ hs hc,
      hget, hget, updateServers_cache E s c cache accept hc hacc hadd hlog,
      keepFirst_append_of_known]
    intro a ha
    exact hknown a (List.mem_filter.1 ha).1

theorem register_idempotent_witness :
    (listServers "Invalid method" (registrarHTTPServer fun _ => true) (mkRequest "GET" [] [])
        (registerAll "Invalid method" (registrarHTTPServer fun _ => true)
          [mkRequest "PUT" ["10.0.0.1:4647"] [], mkRequest "PUT" ["10.0.0.2:4647"] [],
            mkRequest "PUT" ["10.0.0.1:4647"] []] [])).1
      = (Response.peers ["10.0.0.1:4647", "10.0.0.2:4647"], none)
    ∧ (listServers "Invalid method" (registrarHTTPServer fun _ => true)
        (mkRequest "GET" [] [])
        (updateServers "Invalid method" (registrarHTTPServer fun _ => true)
          (mkRequest "PUT" ["10.0.0.1:4647"] []) ["10.0.0.1:4647", "10.0.0.2:4647"]).2).1
      = (listServers "Invalid method" (registrarHTTPServer fun _ => true)
        (mkRequest "GET" [] []) ["10.0.0.1:4647", "10.0.0.2:4647"]).1 :=
  have h := register_idempotent "Invalid method" (registrarHTTPServer fun _ => true)
    (listRegistrar fun _ => true) (fun w => w) (fun _ => true) []
    [mkRequest "PUT" ["10.0.0.1:4647"] [], mkRequest "PUT" ["10.0.0.2:4647"] [],
      mkRequest "PUT" ["10.0.0.1:4647"] []] (mkRequest "GET" [] [])
    rfl rfl (fun _ => rfl) (fun _ _ => rfl) (fun _ _ => rfl) (fun _ _ _ => rfl) rfl
  ⟨h.1.trans (by decide),
    h.2.2.2.2 (mkRequest "PUT" ["10.0.0.1:4647"] []) ["10.0.0.1:4647", "10.0.0.2:4647"]
      (by decide)⟩

/-! ## Lemmas on the ring buffer -/

theorem drop_take_set_succ {β : Type} (b : List β) (j : Nat) (h : j < b.length) (v : β) :
    (b.set j v).drop (j + 1) ++ (b.set j v).take (j + 1)
      = (b.drop (j + 1) ++ b.take j) ++ [v] := by
  have hset : (b.take j ++ [b[j]]).set j v = b.take j ++ [v] := by
    rw [List.set_append_right j v (by simp [List.length_take])]
    simp [List.length_take, Nat.min_eq_left (Nat.le_of_lt h)]
  rw [List.drop_set, if_pos (Nat.lt_succ_self j), List.set_take, List.take_succ,
    List.getElem?_eq_getElem h, Option.toList, hset, List.append_assoc]

theorem drop_one_of_rot {β : Type} (b o : List β) (j : Nat) (h : j < b.length)
    (ho : b.drop j ++ b.take j = o) : o.drop 1 = b.drop (j + 1) ++ b.take j := by
  rw [← ho, List.drop_eq_getElem_cons h]
  rfl

theorem RingBuff.Enqueue_filling {α : Type} (r : RingBuff α) (v : Iface α)
    (hh : r.head = (r.buff.length : Int) - 1) (hl : (r.buff.length : Int) < r.cap) :
    r.Enqueue v = some { head := r.buff.length, buff := r.buff ++ [v], cap := r.cap } := by
  have h2 : ¬ (r.head + 1 = r.cap) := by omega
  have h3 : 0 ≤ r.head + 1 ∧ r.head + 1 < ((r.buff ++ [Iface.emptyStruct]).length : Int) := by
    rw [List.length_append]
    simp only [List.length_singleton, Nat.cast_add, Nat.cast_one]
    omega
  have h4 : (r.head + 1).toNat = r.buff.length := by omega
  simp only [RingBuff.Enqueue, if_pos hl, if_neg h2, if_pos h3, h4]
  have hset : (r.buff ++ [Iface.emptyStruct]).set r.buff.length v = r.buff ++ [v] := by
    rw [List.set_append_right _ _ (Nat.le_refl _)]
    simp
  rw [hset]
  have h5 : r.head + 1 = (r.buff.length : Int) := by omega
  rw [h5]

theorem RingBuff.Enqueue_full {α : Type} (r : RingBuff α) (v : Iface α) (j : Nat)
    (hl : ¬ (r.buff.length : Int) < r.cap) (hj : j < r.buff.length)
    (hh : (if r.head + 1 = r.cap then 0 else r.head + 1) = (j : Int)) :
    r.Enqueue v = some { head := j, buff := r.buff.set j v, cap := r.cap } := by
  have h3 : 0 ≤ (j : Int) ∧ (j : Int) < (r.buff.length : Int) := by omega
  simp only [RingBuff.Enqueue, if_neg hl, hh, if_pos h3, Int.toNat_ofNat]

theorem RingBuff.Holds.fresh {α : Type} (c : Nat) :
    RingBuff.Holds c ([] : List (Iface α)) { head := -1, buff := [], cap := c } :=
  { cap := rfl
    len := by simp
    head_ge := by simp
    head_lt := by simp
    filling := fun _ => by simp
    nonempty := fun h => absurd rfl h
    rot := by simp
    last := fun v h => by simp at h }

theorem RingBuff.Holds.buff_eq {α : Type} {c : Nat} {vs : List (Iface α)} {r : RingBuff α}
    (h : r.Holds c vs) (hn : vs.length ≤ c) : r.buff = vs := by
  have hlen : r.buff.length = vs.length := by
    rw [h.len]
    exact Nat.min_eq_left hn
  have hk : (r.head + 1).toNat = r.buff.length := by
    have := h.filling hn
    omega
  have hrot := h.rot
  rw [hk, List.drop_length, List.take_length, List.nil_append,
    Nat.sub_eq_zero_of_le hn, List.drop_zero] at hrot
  exact hrot

theorem RingBuff.Holds.enqueue_one {α : Type} {c : Nat} {vs : List (Iface α)} {r : RingBuff α}
    (h : r.Holds c vs) (hc : 1 ≤ c) (v : Iface α) :
    ∃ r1, r.Enqueue v = some r1 ∧ r1.Holds c (vs ++ [v]) := by
  by_cases hn : vs.length < c
  · have hbuff : r.buff = vs := h.buff_eq (Nat.le_of_lt hn)
    have hhead : r.head = (r.buff.length : Int) - 1 := by
      rw [hbuff]
      exact h.filling (Nat.le_of_lt hn)
    have hl : (r.buff.length : Int) < r.cap := by
      rw [hbuff, h.cap]
      exact_mod_cast hn
    refine ⟨_, RingBuff.Enqueue_filling r v hhead hl, ?_⟩
    rw [hbuff]
    refine ⟨h.cap, ?_, ?_, ?_, ?_, ?_, ?_, ?_⟩
    · simp only [List.length_append, List.length_singleton]
      omega
    · simp only
      omega
    · simp only [List.length_append, List.length_singleton, Nat.cast_add, Nat.cast_one]
      omega
    · intro _
      simp only [List.length_append, List.length_singleton, Nat.cast_add, Nat.cast_one]
      omega
    · intro _
      simp only
      omega
    · have hk : ((vs.length : Int) + 1).toNat = (vs ++ [v]).length := by
        simp only [List.length_append, List.length_singleton]
        omega
      simp only
      rw [hk, List.drop_length, List.take_length, List.nil_append]
      have hz : (vs ++ [v]).length - c = 0 := by
        simp only [List.length_append, List.length_singleton]
        omega
      rw [hz, List.drop_zero]
    · intro x hx
      rw [List.getLast?_concat] at hx
      simp only [Int.toNat_ofNat]
      rw [List.getElem?_concat_length]
      exact hx
  · have hge : c ≤ vs.length := Nat.le_of_not_lt hn
    have hlen : r.buff.length = c := by
      rw [h.len]
      exact Nat.min_eq_right hge
    have hne : vs ≠ [] := by
      intro hnil
      rw [hnil] at hge
      simp at hge
      omega
    have h0 : 0 ≤ r.head := h.nonempty hne
    have hlt : r.head < (c : Int) := by
      have := h.head_lt
      rw [hlen] at this
      exact this
    have hl : ¬ (r.buff.length : Int) < r.cap := by
      rw [hlen, h.cap]
      omega
    -- the slot written by the call
    obtain ⟨j, hj, hjc⟩ : ∃ j : Nat,
        (if r.head + 1 = r.cap then 0 else r.head + 1) = (j : Int) ∧ j < c := by
      by_cases hw : r.head + 1 = r.cap
      · exact ⟨0, by rw [if_pos hw]; rfl, hc⟩
      · refine ⟨(r.head + 1).toNat, ?_, ?_⟩
        · rw [if_neg hw]
          omega
        · rw [h.cap] at hw
          omega
    have hjlen : j < r.buff.length := by
      rw [hlen]
      exact hjc
    -- the rotation before the call starts at the slot
    have hrotj : r.buff.drop j ++ r.buff.take j = vs.drop (vs.length - c) := by
      by_cases hw : r.head + 1 = r.cap
      · rw [if_pos hw] at hj
        have hj0 : j = 0 := by omega
        have hk : (r.head + 1).toNat = r.buff.length := by
          rw [hlen, hw, h.cap]
          simp
        have hrot := h.rot
        rw [hk, List.drop_length, List.take_length, List.nil_append] at hrot
        rw [hj0, List.drop_zero, List.take_zero, List.append_nil]
        exact hrot
      · rw [if_neg hw] at hj
        have hk : (r.head + 1).toNat = j := by omega
        have hrot := h.rot
        rw [hk] at hrot
        exact hrot
    refine ⟨_, RingBuff.Enqueue_full r v j hl hjlen hj, ?_⟩
    refine ⟨h.cap, ?_, ?_, ?_, ?_, ?_, ?_, ?_⟩
    · simp only [List.length_set, List.length_append, List.length_singleton]
      omega
    · simp only
      omega
    · simp only [List.length_set]
      omega
    · intro hle
      simp only [List.length_append, List.length_singleton] at hle
      omega
    · intro _
      simp only
      omega
    · have hk : ((j : Int) + 1).toNat = j + 1 := by omega
      simp only
      rw [hk, drop_take_set_succ r.buff j hjlen v, ← drop_one_of_rot r.buff _ j hjlen hrotj,
        List.drop_drop]
      have hd : (vs ++ [v]).length - c = vs.length - c + 1 := by
        simp only [List.length_append, List.length_singleton]
        omega
      rw [hd, List.drop_append_of_le_length (by omega)]
    · intro x hx
      rw [List.getLast?_concat] at hx
      simp only [Int.toNat_ofNat]
      rw [List.getElem?_set_self hjlen]
      exact hx

theorem RingBuff.Holds.enqueue_all {α : Type} {c : Nat} (hc : 1 ≤ c) (ws : List (Iface α)) :
    ∀ {vs : List (Iface α)} {r : RingBuff α}, r.Holds c vs →
      ∃ r1, RingBuff.enqueueAll ws r = some r1 ∧ r1.Holds c (vs ++ ws) := by
  induction ws with
  | nil =>
    intro vs r h
    exact ⟨r, rfl, by rw [List.append_nil]; exact h⟩
  | cons v t ih =>
    intro vs r h
    obtain ⟨r1, he, h1⟩ := h.enqueue_one hc v
    obtain ⟨r2, he2, h2⟩ := ih h1
    refine ⟨r2, ?_, ?_⟩
    · simp only [RingBuff.enqueueAll, he]
      exact he2
    · rw [List.append_assoc] at h2
      exact h2

theorem RingBuff.after_holds {α : Type} (c : Int) (hc : 1 ≤ c) (vs : List (Iface α)) :
    ∃ r, RingBuff.after c vs = some r ∧ r.Holds c.toNat vs := by
  have hnew : (NewRingBuff (fun _ => true) c : Option (Except String (RingBuff α)))
      = some (Except.ok { head := -1, buff := [], cap := c }) := by
    have hlt : ¬ c < 1 := by omega
    simp only [NewRingBuff, if_neg hlt, if_true]
  have hstart : RingBuff.Holds c.toNat ([] : List (Iface α))
      { head := -1, buff := [], cap := c } := by
    have h := @RingBuff.Holds.fresh α c.toNat
    have hcast : ((c.toNat : Nat) : Int) = c := by omega
    rw [hcast] at h
    exact h
  obtain ⟨r, he, h⟩ := RingBuff.Holds.enqueue_all (by omega) vs hstart
  refine ⟨r, ?_, ?_⟩
  · simp only [RingBuff.after, hnew]
    exact he
  · rw [List.nil_append] at h
    exact h

theorem RingBuff.Holds.values_eq {α : Type} {c : Nat} {vs : List (Iface α)} {r : RingBuff α}
    (h : r.Holds c vs) : r.Values = some (vs.drop (vs.length - c), r) := by
  have hge := h.head_ge
  have hlt := h.head_lt
  by_cases hh : r.head = (r.buff.length : Int) - 1
  · have hk : (r.head + 1).toNat = r.buff.length := by omega
    have hrot := h.rot
    rw [hk, List.drop_length, List.take_length, List.nil_append] at hrot
    simp only [RingBuff.Values, if_pos hh]
    rw [hrot]
  · have hb : 0 ≤ r.head + 1 ∧ r.head + 1 ≤ (r.buff.length : Int) := by omega
    simp only [RingBuff.Values, if_neg hh, if_pos hb]
    rw [h.rot]

theorem RingBuff.Holds.peek_empty {α : Type} {c : Nat} {r : RingBuff α}
    (h : r.Holds c ([] : List (Iface α))) : r.Peek = some (Iface.nil, r) := by
  have hge := h.head_ge
  have hlt := h.head_lt
  have hlen := h.len
  simp only [List.length_nil, Nat.zero_min] at hlen
  have hh : r.head = -1 := by
    rw [hlen] at hlt
    simp only [Nat.cast_zero] at hlt
    omega
  simp only [RingBuff.Peek, if_pos hh]

theorem RingBuff.Holds.peek_last {α : Type} {c : Nat} {vs : List (Iface α)}
    {r : RingBuff α} (v : Iface α) (h : r.Holds c (vs ++ [v])) : r.Peek = some (v, r) := by
  have h0 : 0 ≤ r.head := h.nonempty (by simp)
  have hh : ¬ r.head = -1 := by omega
  have hv := h.last v (List.getLast?_concat vs)
  simp only [RingBuff.Peek, if_neg hh, if_pos h0, hv]

/-- C15: for every capacity `c` of at least 1 and every sequence `vs` of
values enqueued into the buffer `NewRingBuff c` returns, the enqueues all
return and `Values` then returns the last `min n c` values of `vs`, `n` being
its length, in enqueue order (the empty list when `n` is 0); on a full buffer
one more `Enqueue` drops the oldest of these values and no other. -/
theorem values_last_enqueued {α : Type} (c : Int) (hc : 1 ≤ c) (vs : List (Iface α)) :
    (∃ r, RingBuff.after c vs = some r
        ∧ r.Values = some (vs.drop (vs.length - min vs.length c.toNat), r))
      ∧ (vs.drop (vs.length - min vs.length c.toNat)).length = min vs.length c.toNat
      ∧ (∀ v : Iface α, c.toNat ≤ vs.length →
          (vs ++ [v]).drop ((vs ++ [v]).length - min (vs ++ [v]).length c.toNat)
            = (vs.drop (vs.length - min vs.length c.toNat)).drop 1 ++ [v]) := by
  have hsub : vs.length - min vs.length c.toNat = vs.length - c.toNat := by omega
  refine ⟨?_, ?_, ?_⟩
  · obtain ⟨r, hr, h⟩ := RingBuff.after_holds c hc vs
    refine ⟨r, hr, ?_⟩
    rw [hsub]
    exact h.values_eq
  · rw [List.length_drop]
    omega
  · intro v hfull
    have h1 : (vs ++ [v]).length - min (vs ++ [v]).length c.toNat
        = vs.length - c.toNat + 1 := by
      simp only [List.length_append, List.length_singleton]
      omega
    rw [h1, hsub, List.drop_drop, List.drop_append_of_le_length (by omega)]

theorem values_last_enqueued_witness :
    (1 : Int) ≤ 3
    ∧ (∃ r : RingBuff Nat,
        RingBuff.after 3 [Iface.val 1, Iface.val 2, Iface.val 3, Iface.val 4, Iface.val 5]
          = some r
        ∧ r.Values = some ([Iface.val 3, Iface.val 4, Iface.val 5], r)) :=
  ⟨by decide,
    (values_last_enqueued 3 (by decide)
      [Iface.val 1, Iface.val 2, Iface.val 3, Iface.val 4, Iface.val 5]).1⟩

/-- C16: for every capacity `c` of at least 1, `Peek` on the buffer
`NewRingBuff c` returns is nil when nothing has been enqueued, and after any
non-empty sequence of enqueues it is the value of the most recent one, also
after the buffer has wrapped around; `Peek` leaves the buffer as it was, so
`Values` and a later `Peek` return what they would have returned. -/
theorem peek_most_recent {α : Type} (c : Int) (hc : 1 ≤ c) :
    (∃ r : RingBuff α, RingBuff.after c [] = some r ∧ r.Peek = some (Iface.nil, r))
      ∧ (∀ (vs : List (Iface α)) (v : Iface α),
          ∃ r, RingBuff.after c (vs ++ [v]) = some r ∧ r.Peek = some (v, r))
      ∧ (∀ (r r1 : RingBuff α) (x : Iface α), r.Peek = some (x, r1) →
          r1 = r ∧ r1.Values = r.Values ∧ r1.Peek = r.Peek) := by
  refine ⟨?_, ?_, ?_⟩
  · obtain ⟨r, hr, h⟩ := RingBuff.after_holds c hc ([] : List (Iface α))
    exact ⟨r, hr, h.peek_empty⟩
  · intro vs v
    obtain ⟨r, hr, h⟩ := RingBuff.after_holds c hc (vs ++ [v])
    exact ⟨r, hr, h.peek_last v⟩
  · intro r r1 x hp
    have hr : r1 = r := by
      unfold RingBuff.Peek at hp
      split at hp
      · simp only [Option.some.injEq, Prod.mk.injEq] at hp
        exact hp.2.symm
      · split at hp
        · split at hp
          · simp only [Option.some.injEq, Prod.mk.injEq] at hp
            exact hp.2.symm
          · exact absurd hp (by simp)
        · exact absurd hp (by simp)
    subst hr
    exact ⟨rfl, rfl, rfl⟩

theorem peek_most_recent_witness :
    (1 : Int) ≤ 2
    ∧ (∃ r : RingBuff Nat,
        RingBuff.after 2 ([Iface.val 1, Iface.val 2] ++ [Iface.val 3]) = some r
        ∧ r.Peek = some (Iface.val 3, r))
    ∧ RingBuff.after 2 [Iface.val 1, Iface.val 2, Iface.val 3]
      = some ({ head := 0, buff := [Iface.val 3, Iface.val 2], cap := 2 } : RingBuff Nat) :=
  ⟨by decide,
    (peek_most_recent 2 (by decide)).2.1 [Iface.val 1, Iface.val 2] (Iface.val 3),
    by decide⟩

theorem NewRingBuff_of_makeReturns {α : Type} (makeReturns : Int → Bool) (capacity : Int)
    (h : capacity < 1 ∨ makeReturns capacity = true) :
    (NewRingBuff makeReturns capacity : Option (Except String (RingBuff α)))
      = NewRingBuff (fun _ => true) capacity := by
  by_cases hlt : capacity < 1
  · simp only [NewRingBuff, if_pos hlt]
  · rcases h with h | h
    · exact absurd h hlt
    · simp only [NewRingBuff, if_neg hlt, h, if_true]

/-- C17, as stated, fails: the capacity 9223372036854775807, the largest Go
`int`, is at least 1, yet `NewRingBuff` returns no buffer for it: the
allocation of the slice is beyond the bound of the run time and panics. -/
theorem newRingBuff_capacity_counterexample :
    (1 : Int) ≤ 9223372036854775807
    ∧ (NewRingBuff makeslice64 9223372036854775807 : Option (Except String (RingBuff Nat)))
      = none
    ∧ (NewRingBuff makeslice64 9223372036854775807 : Option (Except String (RingBuff Nat)))
      ≠ some (Except.ok { head := -1, buff := [], cap := 9223372036854775807 }) := by
  have h : (NewRingBuff makeslice64 9223372036854775807 :
      Option (Except String (RingBuff Nat))) = none := by
    simp [NewRingBuff, makeslice64]
  refine ⟨by decide, h, ?_⟩
  rw [h]
  simp

/-- C17, amended: `NewRingBuff capacity` returns an error exactly when
`capacity` is less than 1; for every capacity of at least 1 whose allocation
returns, it returns the buffer with no stored value, head -1 and that
capacity; for a capacity of at least 1 whose allocation does not return, it
panics and returns neither a buffer nor an error. -/
theorem newRingBuff_capacity {α : Type} (makeReturns : Int → Bool) (capacity : Int) :
    ((∃ e, (NewRingBuff makeReturns capacity : Option (Except String (RingBuff α)))
          = some (Except.error e)) ↔ capacity < 1)
      ∧ (1 ≤ capacity → makeReturns capacity = true →
          (NewRingBuff makeReturns capacity : Option (Except String (RingBuff α)))
            = some (Except.ok { head := -1, buff := [], cap := capacity }))
      ∧ (1 ≤ capacity → makeReturns capacity = false →
          (NewRingBuff makeReturns capacity : Option (Except String (RingBuff α)))
            = none) := by
  by_cases h : capacity < 1
  · refine ⟨⟨fun _ => h, fun _ => ⟨_, if_pos h⟩⟩, ?_, ?_⟩
    · intro h1
      omega
    · intro h1
      omega
  · refine ⟨⟨?_, fun h1 => absurd h1 h⟩, ?_, ?_⟩
    · rintro ⟨e, he⟩
      simp only [NewRingBuff, if_neg h] at he
      split at he
      · exact absurd he (by simp)
      · exact absurd he (by simp)
    · intro _ hmk
      simp only [NewRingBuff, if_neg h, hmk, if_true]
    · intro _ hmk
      simp only [NewRingBuff, if_neg h, hmk]
      rfl

theorem newRingBuff_capacity_witness :
    (1 : Int) ≤ 60 ∧ makeslice64 60 = true
    ∧ (NewRingBuff makeslice64 60 : Option (Except String (RingBuff Nat)))
      = some (Except.ok { head := -1, buff := [], cap := 60 })
    ∧ (∃ e, (NewRingBuff makeslice64 0 : Option (Except String (RingBuff Nat)))
      = some (Except.error e))
    ∧ (NewRingBuff makeslice64 9223372036854775807 : Option (Except String (RingBuff Nat)))
      = none :=
  ⟨by decide, by decide,
    (newRingBuff_capacity makeslice64 60).2.1 (by decide) (by decide),
    (newRingBuff_capacity makeslice64 0).1.2 (by decide),
    (newRingBuff_capacity makeslice64 9223372036854775807).2.2 (by decide) (by decide)⟩

/-- C18: invariant and index safety.  For every capacity `c` of at least 1 and
every sequence `vs` of enqueues into the buffer `NewRingBuff c` returns, the
enqueues all return, and the buffer reached has at most `c` stored values,
`min n c` of them for `n` enqueues, a head from -1 up to below their number,
the head being -1 exactly when nothing is stored; on it `Enqueue`, `Peek` and
`Values` return: no index or slice bound is exceeded. -/
theorem ring_invariant {α : Type} (c : Int) (hc : 1 ≤ c) (vs : List (Iface α)) :
    ∃ r, RingBuff.after c vs = some r
      ∧ r.cap = c
      ∧ (r.buff.length : Int) ≤ c
      ∧ -1 ≤ r.head ∧ r.head < (r.buff.length : Int)
      ∧ (r.head = -1 ↔ r.buff = [])
      ∧ r.buff.length = min vs.length c.toNat
      ∧ (∀ v, ∃ r1, r.Enqueue v = some r1)
      ∧ (∃ x, r.Peek = some (x, r))
      ∧ (∃ xs, r.Values = some (xs, r)) := by
  obtain ⟨r, hr, h⟩ := RingBuff.after_holds c hc vs
  have hcap : r.cap = c := by
    rw [h.cap]
    omega
  have hlen := h.len
  refine ⟨r, hr, hcap, by omega, h.head_ge, h.head_lt, ?_, hlen, ?_, ?_, ⟨_, h.values_eq⟩⟩
  · constructor
    · intro hh
      have hvs : vs = [] := by
        by_contra hne
        have := h.nonempty hne
        omega
      rw [hvs] at hlen
      simp only [List.length_nil, Nat.zero_min] at hlen
      exact List.length_eq_zero.1 hlen
    · intro hb
      have hlt := h.head_lt
      have hge := h.head_ge
      rw [hb] at hlt
      simp only [List.length_nil, Nat.cast_zero] at hlt
      omega
  · intro v
    obtain ⟨r1, he, _⟩ := h.enqueue_one (by omega) v
    exact ⟨r1, he⟩
  · rcases List.eq_nil_or_concat vs with hnil | ⟨ws, v, hcons⟩
    · rw [hnil] at h
      exact ⟨_, h.peek_empty⟩
    · rw [hcons, List.concat_eq_append] at h
      exact ⟨_, h.peek_last v⟩

theorem ring_invariant_witness :
    (1 : Int) ≤ 2
    ∧ ∃ r : RingBuff Nat,
        RingBuff.after 2 [Iface.val 1, Iface.nil, Iface.val 3] = some r
        ∧ r.cap = 2
        ∧ (r.buff.length : Int) ≤ 2
        ∧ -1 ≤ r.head ∧ r.head < (r.buff.length : Int)
        ∧ (r.head = -1 ↔ r.buff = [])
        ∧ r.buff.length = min [Iface.val 1, (Iface.nil : Iface Nat), Iface.val 3].length
            (2 : Int).toNat
        ∧ (∀ v, ∃ r1, r.Enqueue v = some r1)
        ∧ (∃ x, r.Peek = some (x, r))
        ∧ (∃ xs, r.Values = some (xs, r)) :=
  ⟨by decide, ring_invariant 2 (by decide) [Iface.val 1, Iface.nil, Iface.val 3]⟩

end Nomad
